import Mathlib

/-!
Verification of the crawler2025 repository's specification against its code.

The development shallowly embeds the parts of the Python source that the
claims concern:

* the two-pass consensus classification loops of `crawler_light/main.py`
  (`CrawlerSystem.run_full_crawl`), `crawler/main_backward.py`
  (`IncrementalCrawlerSystem.run_incremental_crawl`) and
  `crawler/parser.py` (`NatureParser.scrape_journal`);
* the Nature pagination loop of `NatureParser.scrape_journal`;
* the relaxed nearest-issue fallback of
  `ScienceParser._find_nearest_volumes_science` and
  `CellParser._find_nearest_issues_cell`;
* `UnifiedDB.save_paper` and `UnifiedDB.get_last_update_time` of
  `crawler/db.py` (MySQL `INSERT IGNORE` with the `unique_doi` key is
  modelled with its NULL semantics: a NULL key never collides);
* `BaseParser.get_page_with_retry` of `crawler/parser.py`, with the
  random draws supplied as an oracle `rand : Nat -> Rat` in `[0,1]`;
* `FailedJournalsManager` of `crawler_light/tools/failed_journals_manager.py`.

Dates are modelled at day granularity as integers (the code compares
`datetime.date` values; `timedelta(weeks=1)` is 7 days, and Python date
arithmetic ignores sub-day components, so `start + (end-start)/2` floors).
-/

namespace Crawler2025

/-! ## Consensus classification

`crawler_light/main.py` lines 260-301, `crawler/main_backward.py` lines
209-245 and `crawler/parser.py` lines 709-745 run the same two-pass
consensus: two batched passes produce result maps keyed by item id, then
per item the verdicts are compared and a single-item adjudication call
(`agent.analyze_paper`) breaks disagreement.  The variants differ only in
what they do when an id is missing from either map. -/

/-- A single classification vote as returned by
`batch_analyze_papers_in_batches_concurrent`: the dict
`{id, is_ai_related, explanation}` (the id is the map key). -/
structure Vote where
  is_ai_related : Bool
  explanation : String
deriving Repr, DecidableEq

/-- The dict returned by the single-item adjudication call
`agent.analyze_paper(title, abstract)`; its `explanation` key may be
absent (the caller reads it with `review.get('explanation', 'reviewed')`). -/
structure AdjReview where
  is_ai_related : Bool
  explanation : Option String
deriving Repr, DecidableEq

/-- An input item queued for classification: the `card_infos` entry
projected to the fields the consensus reads (`id`, `title`, `abstract`). -/
structure PaperItem where
  id : String
  title : String
  abstract : String
deriving Repr, DecidableEq

/-- A classified output item: the input together with the final verdict
and the stored `reason`. -/
structure ClassifiedPaper where
  item : PaperItem
  ai_relevant : Bool
  reason : String
deriving Repr, DecidableEq

/-- One item's consensus outcome, mirroring the common branch structure:
`None` when the id is missing from either pass's map (`if not r1 or not
r2`), otherwise `(verdict, reason, adjudicated?)`: agreement keeps pass
A's explanation without adjudicating; disagreement calls `analyze_paper`
and accepts its verdict, with reason `review.get('explanation',
'reviewed')`. -/
def consensusStep (adj : PaperItem → AdjReview) (r1m r2m : String → Option Vote)
    (item : PaperItem) : Option (Bool × String × Bool) :=
  match r1m item.id, r2m item.id with
  | some r1, some r2 =>
    if r1.is_ai_related && r2.is_ai_related then
      some (true, r1.explanation, false)
    else if !r1.is_ai_related && !r2.is_ai_related then
      some (false, r1.explanation, false)
    else
      let review := adj item
      some (review.is_ai_related, review.explanation.getD "reviewed", true)
  | _, _ => none

/-- The full-crawl consensus loop of `crawler_light/main.py` lines
276-301: an item missing from either pass is appended to the non-AI list
with `reason = 'AI分析失败'` and `ai_relevant = False`.  Returns
(ai_papers, non_ai_papers, ids of items adjudicated by a third call). -/
def classifyLight (adj : PaperItem → AdjReview) (r1m r2m : String → Option Vote) :
    List PaperItem → List ClassifiedPaper × List ClassifiedPaper × List String
  | [] => ([], [], [])
  | item :: rest =>
    let prev := classifyLight adj r1m r2m rest
    match consensusStep adj r1m r2m item with
    | none => (prev.1, ⟨item, false, "AI分析失败"⟩ :: prev.2.1, prev.2.2)
    | some (v, reason, adjudicated) =>
      let calls' :=
        match adjudicated with
        | true => item.id :: prev.2.2
        | false => prev.2.2
      match v with
      | true => (⟨item, true, reason⟩ :: prev.1, prev.2.1, calls')
      | false => (prev.1, ⟨item, false, reason⟩ :: prev.2.1, calls')

/-- The incremental-crawl consensus loop of `crawler/main_backward.py`
lines 225-245 (the same branch structure is in
`NatureParser.scrape_journal`, `crawler/parser.py` lines 725-745): an
item missing from either pass hits `continue` and is appended to neither
list. -/
def classifyBackward (adj : PaperItem → AdjReview) (r1m r2m : String → Option Vote) :
    List PaperItem → List ClassifiedPaper × List ClassifiedPaper × List String
  | [] => ([], [], [])
  | item :: rest =>
    let prev := classifyBackward adj r1m r2m rest
    match consensusStep adj r1m r2m item with
    | none => (prev.1, prev.2.1, prev.2.2)
    | some (v, reason, adjudicated) =>
      let calls' :=
        match adjudicated with
        | true => item.id :: prev.2.2
        | false => prev.2.2
      match v with
      | true => (⟨item, true, reason⟩ :: prev.1, prev.2.1, calls')
      | false => (prev.1, ⟨item, false, reason⟩ :: prev.2.1, calls')

/-- Whether both passes returned a vote for the item. -/
def bothVotesPresent (r1m r2m : String → Option Vote) (item : PaperItem) : Bool :=
  (r1m item.id).isSome && (r2m item.id).isSome

/-! ## Nature pagination (`NatureParser.scrape_journal`, `crawler/parser.py` lines 597-701)

One listing stream is a chain of pages, each a list of article cards;
page `i+1` of the list is the page that page `i`'s
`li[data-test=page-next]` locator points to (a missing locator is
modelled by the chain ending).  A card keeps the data the loop reads:
its parsed publication date (`pub_date`, `None` when the `time` tag is
missing or unparseable), whether `db.paper_exists(doi)` holds, and
whether `(title, link)` is in the `non_ai_set`.  Cards whose
`h3.c-card__title` is missing are skipped before any of this and are
omitted from the model. -/

/-- An article card as seen by the pagination loop. -/
structure PageCard where
  date : Option Int
  inDb : Bool
  inNonAiSet : Bool
deriving Repr, DecidableEq

/-- The per-card filter of lines 639-663: a card with a parsed date is
kept only when `start_date ≤ pub_date ≤ end_date`; a card whose date
failed to parse skips both comparisons; either way the card is dropped
when it is already in the database or in the non-AI set. -/
def keepCard (startD endD : Int) (c : PageCard) : Bool :=
  (match c.date with
   | some d => decide (startD ≤ d) && decide (d ≤ endD)
   | none => true)
  && !c.inDb && !c.inNonAiSet

/-- `ret_date` after a page: line 636 assigns every card's `pub_date`
(parsed or `None`) to `ret_date`, so after the page it holds the last
card's date; an empty page leaves the previous value in place. -/
def lastRetDate (page : List PageCard) (ret : Option Int) : Option Int :=
  match page.getLast? with
  | some c => c.date
  | none => ret

/-- The pagination loop of lines 598-701: visit the current page,
collect the cards passing `keepCard`, and continue to the next page only
when a next-page locator exists and the stop check of lines 689-698 does
not fire (`ret_date` is a parsed date strictly before `start_date`).
Returns the collected candidate cards and the number of pages visited. -/
def scrapePages (startD endD : Int) :
    List (List PageCard) → Option Int → List PageCard × Nat
  | [], _ => ([], 0)
  | page :: rest, ret =>
    let collected := page.filter (keepCard startD endD)
    let ret' := lastRetDate page ret
    match rest with
    | [] => (collected, 1)
    | _ :: _ =>
      match ret' with
      | some d =>
        if d < startD then (collected, 1)
        else
          let prev := scrapePages startD endD rest ret'
          (collected ++ prev.1, prev.2 + 1)
      | none =>
        let prev := scrapePages startD endD rest ret'
        (collected ++ prev.1, prev.2 + 1)

/-- Two cards in listing order respect reverse chronology: when both
dates parsed, the later-listed card is not newer. -/
def cardOlderLEB (a b : PageCard) : Bool :=
  match a.date, b.date with
  | some da, some db => decide (db ≤ da)
  | _, _ => true

/-- The spec's standing assumption on listing streams: across the whole
stream, in listing order, parsed dates never increase. -/
def reverseChronological (pages : List (List PageCard)) : Prop :=
  pages.flatten.Pairwise (fun a b => cardOlderLEB a b = true)

/-! ## Sorting before persistence (`crawler/main_backward.py` line 250)

`run_incremental_crawl` sorts `ai_papers` ascending by date
(`ai_papers.sort(key=lambda x: x.get('date', datetime.now().date()))`)
and then iterates the sorted list calling `db.save_paper`.  Every
`card_infos` entry carries a `date` key, so the sort key is the item's
publication date. -/

/-- A paper record as handled by `run_incremental_crawl` and
`UnifiedDB.save_paper`: the fields the modelled code reads. -/
structure PaperRec where
  title : String
  abstract : String
  doi : String
  url : String
  date : Int
deriving Repr, DecidableEq

/-- The ascending-by-date comparison used as the sort key. -/
def dateLE (a b : PaperRec) : Prop := a.date ≤ b.date

instance : DecidableRel dateLE := fun a b => inferInstanceAs (Decidable (a.date ≤ b.date))

instance : IsTotal PaperRec dateLE := ⟨fun a b => le_total a.date b.date⟩

instance : IsTrans PaperRec dateLE := ⟨fun _ _ _ hab hbc => le_trans hab hbc⟩

/-- `ai_papers.sort(key=...)`: Python's stable ascending sort, modelled
by insertion sort on the date key.  The resulting list is exactly the
sequence handed to the `db.save_paper` loop of lines 256-259. -/
def sortAiPapersByDate (papers : List PaperRec) : List PaperRec :=
  List.insertionSort dateLE papers

/-- The full-crawl pipeline's handoff (`crawler/main_forward.py` lines
197-201): `run_full_crawl` iterates the classified `ai_papers` batch
directly into `db.save_paper` — no sort happens between classification
and the persistence boundary, so the handed-off order is the batch's
classification order. -/
def forwardSaveOrder (papers : List PaperRec) : List PaperRec := papers

/-- The descending-by-date comparison of `crawler/parser.py` line 768
(`articles.sort(key=..., reverse=True)`). -/
def dateGE (a b : PaperRec) : Prop := b.date ≤ a.date

instance : DecidableRel dateGE := fun a b => inferInstanceAs (Decidable (b.date ≤ a.date))

instance : IsTotal PaperRec dateGE := ⟨fun a b => le_total b.date a.date⟩

instance : IsTrans PaperRec dateGE := ⟨fun _ _ _ hab hbc => le_trans hbc hab⟩

/-- The order `NatureParser.scrape_journal` returns its relevant
articles in: sorted descending by date (`crawler/parser.py` line 768),
which is what `run_full_crawl` in `crawler/main_forward.py` receives as
the classification order of a Nature batch. -/
def natureReturnSort (papers : List PaperRec) : List PaperRec :=
  List.insertionSort dateGE papers

/-! ## Relaxed nearest-issue fallback
(`ScienceParser._find_nearest_volumes_science`, `crawler/parser.py`
lines 1244-1300, and `CellParser._find_nearest_issues_cell`, lines
2400-2454)

Both functions scan the listing entries, parse each entry's cover date
where possible, compute the distance in days to the centre of the crawl
window, sort by distance and return the nearest at most 2 entries. -/

/-- A scanned listing entry (volume or issue link); `date` is `None`
when no cover date could be parsed, and such entries never enter the
distance ranking. -/
structure IssueLink where
  title : String
  url : String
  date : Option Int
deriving Repr, DecidableEq

/-- `target_center = start_date + (end_date - start_date) / 2`: Python
`date + timedelta` drops sub-day components, so the midpoint floors. -/
def targetCenter (startD endD : Int) : Int :=
  startD + Int.fdiv (endD - startD) 2

/-- Distance of a parsed date to the window centre:
`abs((issue_date - target_center).days)`. -/
def issueDistance (center d : Int) : Nat := (d - center).natAbs

/-- The distance comparison the sort uses. -/
def distLE (a b : IssueLink × Nat) : Prop := a.2 ≤ b.2

instance : DecidableRel distLE := fun a b => inferInstanceAs (Decidable (a.2 ≤ b.2))

instance : IsTotal (IssueLink × Nat) distLE := ⟨fun a b => Nat.le_total a.2 b.2⟩

instance : IsTrans (IssueLink × Nat) distLE := ⟨fun _ _ _ hab hbc => Nat.le_trans hab hbc⟩

/-- The relaxed fallback: pair every dated entry with its distance to
the window centre, sort ascending by distance (Python's stable sort),
and return the first at most 2 entries
(`issues_with_dates.sort(key=lambda x: x['distance']);
issues_with_dates[:2]`). -/
def findNearestIssues (links : List IssueLink) (startD endD : Int) : List IssueLink :=
  let center := targetCenter startD endD
  let withDates := links.filterMap fun l =>
    match l.date with
    | some d => some (l, issueDistance center d)
    | none => none
  ((List.insertionSort distLE withDates).take 2).map Prod.fst

/-! ## Persistence (`UnifiedDB`, `crawler/db.py`)

The papers table has `UNIQUE KEY unique_doi (doi)` and rows are written
with `INSERT IGNORE`.  `save_paper` stores, in the `doi` column, the
cleaned DOI, falling back to the cleaned URL when the DOI is empty; when
both are empty the column is NULL, and MySQL's unique key never treats
two NULLs as duplicates, so a NULL-keyed insert is never ignored. -/

/-- `value.strip() == ''`: the string is empty or all whitespace. -/
def isBlankString (s : String) : Bool := s.toList.all Char.isWhitespace

/-- `clean_empty_string`: a string that strips to empty becomes NULL. -/
def cleanEmptyString (s : String) : Option String :=
  if isBlankString s then none else some s

/-- The value stored in the unique `doi` column by `save_paper` lines
201-207: the cleaned DOI, else the cleaned URL, else NULL. -/
def saveKey (p : PaperRec) : Option String :=
  match cleanEmptyString p.doi with
  | some d => some d
  | none => cleanEmptyString p.url

/-- A stored row: the unique-key column value plus the saved record. -/
structure DBRow where
  key : Option String
  paper : PaperRec
deriving Repr, DecidableEq

/-- `save_paper` lines 190-228 as `INSERT IGNORE` against the
`unique_doi` key: a non-NULL key that already exists inserts nothing and
the method returns `rowcount > 0 = False`; otherwise the row is inserted
and the method returns `True`.  A NULL key always inserts. -/
def savePaper (db : List DBRow) (p : PaperRec) : Bool × List DBRow :=
  match saveKey p with
  | some k =>
    if db.any (fun r => r.key = some k) then (false, db)
    else (true, db ++ [⟨some k, p⟩])
  | none => (true, db ++ [⟨none, p⟩])

/-- Number of stored rows whose unique-key column equals `k`. -/
def countKey (db : List DBRow) (k : String) : Nat :=
  (db.filter (fun r => r.key = some k)).length

/-- A row of the papers table as read by `get_last_update_time`:
`SELECT MAX(pub_date) ... WHERE journal = %s` touches only the `journal`
and `pub_date` columns. -/
structure DBPaperRow where
  journal : String
  pubDate : Int
deriving Repr, DecidableEq

/-- `get_last_update_time(journal_name)`, `crawler/db.py` lines 235-270:
the maximum stored `pub_date` for the sub-journal, or
`datetime.now() - timedelta(weeks=1)` (7 days before now) when the
query returns no date. -/
def getLastUpdateTime (rows : List DBPaperRow) (journalName : String) (now : Int) : Int :=
  let dates := (rows.filter (fun r => r.journal = journalName)).map DBPaperRow.pubDate
  match dates.max? with
  | some m => m
  | none => now - 7

/-- `crawler/main_backward.py` line 163: on a non-first incremental run
the window start is exactly what `get_last_update_time` returned
(`start_date = db.get_last_update_time(journal_name=journal_name)`). -/
def incrementalStartDate (rows : List DBPaperRow) (journalName : String) (now : Int) : Int :=
  getLastUpdateTime rows journalName now

/-! ## Failure registry (`FailedJournalsManager`,
`crawler_light/tools/failed_journals_manager.py`)

The registry is the JSON list the manager loads, edits and saves; the
two retry-pass operations are `remove_successful_journal` (lines 76-93)
and `update_retry_info` (lines 95-110). -/

/-- A failure record as stored in `failed_<journal>_journals.json`. -/
structure FailureRecord where
  journal_name : String
  url : String
  reason : String
  failed_time : Int
  retry_count : Nat
  last_retry : Option Int
deriving Repr, DecidableEq

/-- `remove_successful_journal`: keep every record whose name differs
(`[j for j in failed_journals if j['journal_name'] != journal_name]`). -/
def removeSuccessfulJournal (regs : List FailureRecord) (name : String) : List FailureRecord :=
  regs.filter (fun r => r.journal_name ≠ name)

/-- `update_retry_info`: increment `retry_count` and stamp `last_retry`
on the first record with the given name (the loop breaks after the first
match); every other record is untouched. -/
def updateRetryInfo (regs : List FailureRecord) (name : String) (now : Int) :
    List FailureRecord :=
  match regs with
  | [] => []
  | r :: rs =>
    if r.journal_name = name then
      { r with retry_count := r.retry_count + 1, last_retry := some now } :: rs
    else
      r :: updateRetryInfo rs name now

/-! ## Resilient fetch (`BaseParser.get_page_with_retry`,
`crawler/parser.py` lines 266-345)

The first phase makes up to `max_retries` (default 3) plain requests,
re-drawing the User-Agent from the pool before each attempt; attempt
`i > 0` is preceded by a `random.uniform(5, 15) * (attempt + 1)` sleep;
a 403 answer on a non-final attempt adds a `random.uniform(10, 20)`
sleep, an exception a `random.uniform(5, 12)` sleep.  Only when no plain
attempt returned status 200 and the Selenium fallback is enabled
(`use_selenium_fallback and self.use_selenium and self.driver`) is the
headless browser tried; its page counts as success when it carries no
403/Forbidden marker and is longer than 1000 characters.  The network
and the random generator are oracles: `outcomes i` is what
`session.get` does on attempt `i`, `rand n` the `n`-th uniform draw
scaled to `[0, 1]`, and `choice i` the User-Agent index drawn before
attempt `i`. -/

/-- What a single plain `session.get` call did. -/
inductive HttpOutcome where
  | success (bodyLen : Nat)
  | forbidden
  | httpError (code : Nat)
  | exc
deriving Repr, DecidableEq

/-- What the Selenium navigation produced: a loaded page (its length and
whether it contains a "403"/"Forbidden" marker), or an exception. -/
inductive SelOutcome where
  | loaded (bodyLen : Nat) (has403Marker : Bool)
  | failed
deriving Repr, DecidableEq

/-- The three conditions guarding the Selenium fallback. -/
structure SeleniumCfg where
  useSeleniumFallback : Bool
  useSelenium : Bool
  hasDriver : Bool
deriving Repr, DecidableEq

/-- Observable events of one `get_page_with_retry` call, in order. -/
inductive FetchEv where
  | attemptReq (i : Nat) (ua : String)
  | preDelay (i : Nat) (d : ℚ)
  | forbiddenDelay (i : Nat) (d : ℚ)
  | excDelay (i : Nat) (d : ℚ)
  | seleniumFallback
deriving Repr, DecidableEq

/-- `random.choice(self.user_agents)` before attempt `i`. -/
def uaSelect (uaPool : List String) (choice : Nat → Nat) (i : Nat) : String :=
  uaPool.getD (choice i % uaPool.length) ""

/-- The sleep before attempt `i`: `random.uniform(5, 15) * (attempt + 1)`
for `attempt > 0`, no sleep before the first attempt. -/
def preDelayEvs (rand : Nat → ℚ) (i : Nat) : List FetchEv :=
  if i > 0 then [.preDelay i ((5 + 10 * rand (2 * i)) * ((i : ℚ) + 1))] else []

/-- The plain-requests phase (`for attempt in range(max_retries)`),
returning the first 200 body length, or `none` when every attempt
failed, together with the event trace.  `i` is the current attempt
index, `remaining` how many attempts are left; a forbidden or exception
sleep happens only when `attempt < max_retries - 1`. -/
def requestsLoop (outcomes : Nat → HttpOutcome) (uaAt : Nat → String) (rand : Nat → ℚ) :
    Nat → Nat → Option Nat × List FetchEv
  | _, 0 => (none, [])
  | i, r + 1 =>
    let evs0 := preDelayEvs rand i ++ [.attemptReq i (uaAt i)]
    match outcomes i with
    | .success len => (some len, evs0)
    | .forbidden =>
      if r > 0 then
        let prev := requestsLoop outcomes uaAt rand (i + 1) r
        (prev.1, evs0 ++ .forbiddenDelay i (10 + 10 * rand (2 * i + 1)) :: prev.2)
      else (none, evs0)
    | .httpError _ =>
      let prev := requestsLoop outcomes uaAt rand (i + 1) r
      (prev.1, evs0 ++ prev.2)
    | .exc =>
      if r > 0 then
        let prev := requestsLoop outcomes uaAt rand (i + 1) r
        (prev.1, evs0 ++ .excDelay i (5 + 7 * rand (2 * i + 1)) :: prev.2)
      else (none, evs0)

/-- The value `get_page_with_retry` returns: a plain response or a
Selenium-built response. -/
inductive FetchResult where
  | plain (bodyLen : Nat)
  | selenium (bodyLen : Nat)
deriving Repr, DecidableEq

/-- Lines 328: the Selenium page is accepted when it has no
"403"/"Forbidden" marker and `len(page_source) > 1000`. -/
def seleniumOk : SelOutcome → Bool
  | .loaded len marker => !marker && decide (1000 < len)
  | .failed => false

/-- `get_page_with_retry`: the plain phase, then — only when it returned
nothing and the fallback is enabled — one Selenium try; `None` when both
strategies are exhausted. -/
def getPageWithRetry (outcomes : Nat → HttpOutcome) (uaPool : List String)
    (choice : Nat → Nat) (rand : Nat → ℚ) (maxRetries : Nat) (cfg : SeleniumCfg)
    (selOut : SelOutcome) : Option FetchResult × List FetchEv :=
  let phase1 := requestsLoop outcomes (uaSelect uaPool choice) rand 0 maxRetries
  match phase1.1 with
  | some len => (some (.plain len), phase1.2)
  | none =>
    if cfg.useSeleniumFallback && cfg.useSelenium && cfg.hasDriver then
      let evs1 := phase1.2 ++ [.seleniumFallback]
      match selOut with
      | .loaded len marker =>
        if !marker && decide (1000 < len) then (some (.selenium len), evs1)
        else (none, evs1)
      | .failed => (none, evs1)
    else (none, phase1.2)

/-- Recognise a plain-request attempt event. -/
def isAttemptEv : FetchEv → Bool
  | .attemptReq _ _ => true
  | _ => false

/-- Number of plain HTTP attempts in a trace. -/
def countAttempts (evs : List FetchEv) : Nat := evs.countP isAttemptEv

/-! ## Concrete instances used by counterexamples and witnesses -/

/-- An input item whose id is absent from both passes' result maps. -/
def missingItem : PaperItem := ⟨"1", "Unclassified paper", "abstract"⟩

/-- Result maps of a run where every classification call failed. -/
def noVotes : String → Option Vote := fun _ => none

/-- A fixed adjudicator (never reached in the missing-vote scenarios). -/
def defaultAdj : PaperItem → AdjReview := fun _ => ⟨false, none⟩

/-- A listing card dated `d` days, not deduplicated away. -/
def sampleCard (d : Int) : PageCard := ⟨some d, false, false⟩

/-- The spec's synthetic stream with dates `[10, 9, 8, 5, 1]`, laid out
one item per page (each page has a next-page locator to the following
one). -/
def samplePages : List (List PageCard) :=
  [[sampleCard 10], [sampleCard 9], [sampleCard 8], [sampleCard 5], [sampleCard 1]]

/-- A paper whose DOI and URL are both empty strings. -/
def blankKeyPaper : PaperRec := ⟨"title", "abs", "", "", 0⟩

/-- A paper with a non-empty DOI. -/
def doiPaper : PaperRec := ⟨"title", "abs", "10.1/x", "https://e.org/a", 3⟩

/-! ## Theorems -/

/-- C3 counterexample: in `run_full_crawl` (`crawler/main_forward.py`
lines 197-201) the classified relevant batch is handed to
`db.save_paper` with no sort; a Nature batch of two relevant papers
dated days 9 and 10 arrives from `scrape_journal` in descending order
`[10, 9]` (`crawler/parser.py` line 768) and is handed off exactly so —
not ascending by published date. -/
theorem c3_forward_handoff_counterexample :
    natureReturnSort [⟨"p9", "", "d9", "u9", 9⟩, ⟨"p10", "", "d10", "u10", 10⟩] =
      [⟨"p10", "", "d10", "u10", 10⟩, ⟨"p9", "", "d9", "u9", 9⟩] ∧
    forwardSaveOrder [⟨"p10", "", "d10", "u10", 10⟩, ⟨"p9", "", "d9", "u9", 9⟩] =
      [⟨"p10", "", "d10", "u10", 10⟩, ⟨"p9", "", "d9", "u9", 9⟩] ∧
    ¬List.Sorted dateLE
      [(⟨"p10", "", "d10", "u10", 10⟩ : PaperRec), ⟨"p9", "", "d9", "u9", 9⟩] := by
  refine ⟨by decide, rfl, ?_⟩
  intro h
  have hrel := List.rel_of_sorted_cons h (⟨"p9", "", "d9", "u9", 9⟩ : PaperRec)
    (List.mem_singleton.mpr rfl)
  exact absurd hrel (by decide)

/-- C3 (amended): only the incremental pipeline sorts before the
persistence handoff — `run_incremental_crawl` orders the relevant batch
ascending by published date (`dateLE`, a permutation of the batch)
before its `db.save_paper` loop; the full-crawl pipeline
(`run_full_crawl`, `crawler/main_forward.py`) hands the batch to
`db.save_paper` unchanged, in classification order, which for a Nature
batch is the descending-by-date order `scrape_journal` returns. -/
theorem c3_sorted_handoff_per_pipeline (papers : List PaperRec) :
    (List.Sorted dateLE (sortAiPapersByDate papers) ∧
      (sortAiPapersByDate papers).Perm papers) ∧
    forwardSaveOrder papers = papers ∧
    List.Sorted dateGE (natureReturnSort papers) :=
  ⟨⟨List.sorted_insertionSort dateLE papers, List.perm_insertionSort dateLE papers⟩, rfl,
    List.sorted_insertionSort dateGE papers⟩

/-- C7: `get_last_update_time` returns the maximum stored publication
date of the sub-journal, and one week (7 days) before now when no prior
data exists; the next incremental run's window start is exactly that
value. -/
theorem c7_last_known_date_default (rows : List DBPaperRow) (name : String) (now : Int) :
    incrementalStartDate rows name now = getLastUpdateTime rows name now ∧
    (rows.filter (fun r => r.journal = name) = [] →
      getLastUpdateTime rows name now = now - 7) ∧
    (∀ r ∈ rows.filter (fun r => r.journal = name),
      r.pubDate ≤ getLastUpdateTime rows name now) ∧
    (rows.filter (fun r => r.journal = name) ≠ [] →
      ∃ r ∈ rows.filter (fun r => r.journal = name),
        getLastUpdateTime rows name now = r.pubDate) := by
  refine ⟨rfl, ?_, ?_, ?_⟩ <;>
  · haveI : Std.Antisymm (fun x1 x2 : Int => x1 ≤ x2) :=
      ⟨fun {x y} h1 h2 => le_antisymm h1 h2⟩
    unfold getLastUpdateTime
    rcases hmax : ((rows.filter (fun r => r.journal = name)).map DBPaperRow.pubDate).max?
      with _ | m
    · have hnil : (rows.filter (fun r => r.journal = name)).map DBPaperRow.pubDate = [] :=
        List.max?_eq_none_iff.mp hmax
      have hfil : rows.filter (fun r => r.journal = name) = [] :=
        List.map_eq_nil_iff.mp hnil
      simp only [hmax, hfil]
      first
      | exact fun _ => rfl
      | (intro r hr; simp at hr)
      | (intro h; exact absurd rfl h)
    · have hspec := (List.max?_eq_some_iff (fun x => le_refl x)
        (fun x y => max_choice x y) (fun x y z => max_le_iff)).mp hmax
      simp only [hmax]
      first
      | (intro hfil;
         exact absurd (List.map_eq_nil_iff.mpr hfil ▸ hmax) (by simp))
      | (intro r hr;
         exact hspec.2 r.pubDate (List.mem_map_of_mem DBPaperRow.pubDate hr))
      | (intro _;
         obtain ⟨r, hr, hrd⟩ := List.mem_map.mp hspec.1;
         exact ⟨r, hr, hrd.symm⟩)

/-- C9: `remove_successful_journal` leaves exactly the records of other
sources (so a successfully retried source is absent afterwards), and
`update_retry_info` bumps `retry_count`, stamps `last_retry` and keeps
the record present, while records of other sources survive both
operations unchanged. -/
theorem c9_failure_registry_lifecycle (regs : List FailureRecord) (name : String) (now : Int) :
    (∀ r : FailureRecord,
      r ∈ removeSuccessfulJournal regs name ↔ (r ∈ regs ∧ r.journal_name ≠ name)) ∧
    ((regs.map FailureRecord.journal_name).Nodup →
      ∀ rec ∈ regs, rec.journal_name = name →
        { rec with retry_count := rec.retry_count + 1, last_retry := some now }
          ∈ updateRetryInfo regs name now) ∧
    (∀ r ∈ regs, r.journal_name ≠ name → r ∈ updateRetryInfo regs name now) ∧
    (∀ r ∈ updateRetryInfo regs name now,
      r ∈ regs ∨ ∃ rec ∈ regs, rec.journal_name = name ∧
        r = { rec with retry_count := rec.retry_count + 1, last_retry := some now }) := by
  refine ⟨?_, ?_, ?_, ?_⟩
  · intro r
    simp [removeSuccessfulJournal, List.mem_filter]
  · intro hnodup rec hrec hname
    induction regs with
    | nil => simp at hrec
    | cons a rest ih =>
      rw [List.map_cons, List.nodup_cons] at hnodup
      rcases List.mem_cons.mp hrec with heq | hmem
      · subst heq
        simp [updateRetryInfo, hname]
      · have hane : a.journal_name ≠ name := by
          intro hcontra
          exact hnodup.1 (hcontra ▸ hname ▸ List.mem_map_of_mem FailureRecord.journal_name hmem)
        simp only [updateRetryInfo, if_neg hane]
        exact List.mem_cons_of_mem a (ih hnodup.2 hmem)
  · intro r hr hrname
    induction regs with
    | nil => simp at hr
    | cons a rest ih =>
      rcases List.mem_cons.mp hr with heq | hmem
      · subst heq
        simp only [updateRetryInfo, if_neg hrname]
        exact List.mem_cons_self r _
      · by_cases ha : a.journal_name = name
        · simp only [updateRetryInfo, if_pos ha]
          exact List.mem_cons_of_mem _ hmem
        · simp only [updateRetryInfo, if_neg ha]
          exact List.mem_cons_of_mem a (ih hmem)
  · intro r hr
    induction regs with
    | nil => simp [updateRetryInfo] at hr
    | cons a rest ih =>
      by_cases ha : a.journal_name = name
      · rw [updateRetryInfo, if_pos ha] at hr
        rcases List.mem_cons.mp hr with heq | hmem
        · exact Or.inr ⟨a, List.mem_cons_self a rest, ha, heq⟩
        · exact Or.inl (List.mem_cons_of_mem a hmem)
      · rw [updateRetryInfo, if_neg ha] at hr
        rcases List.mem_cons.mp hr with heq | hmem
        · exact Or.inl (heq ▸ List.mem_cons_self a rest)
        · rcases ih hmem with h1 | ⟨rec, hrec, hrn, hre⟩
          · exact Or.inl (List.mem_cons_of_mem a h1)
          · exact Or.inr ⟨rec, List.mem_cons_of_mem a hrec, hrn, hre⟩

/-- C9 witness: on a concrete two-record registry, removing the
successfully retried source leaves it absent, and an unsuccessful retry
bumps the record while the other record survives. -/
theorem c9_failure_registry_lifecycle_witness :
    ((⟨"A", "u", "Forbidden", 0, 1, none⟩ : FailureRecord) ∈
        removeSuccessfulJournal
          [⟨"A", "u", "Forbidden", 0, 1, none⟩, ⟨"B", "v", "r", 0, 0, none⟩] "A" ↔
      ((⟨"A", "u", "Forbidden", 0, 1, none⟩ : FailureRecord) ∈
        ([⟨"A", "u", "Forbidden", 0, 1, none⟩, ⟨"B", "v", "r", 0, 0, none⟩] :
          List FailureRecord) ∧
        (⟨"A", "u", "Forbidden", 0, 1, none⟩ : FailureRecord).journal_name ≠ "A")) ∧
    (⟨"A", "u", "Forbidden", 0, 2, some 9⟩ : FailureRecord) ∈
      updateRetryInfo
        [⟨"A", "u", "Forbidden", 0, 1, none⟩, ⟨"B", "v", "r", 0, 0, none⟩] "A" 9 := by
  constructor
  · exact (c9_failure_registry_lifecycle
      [⟨"A", "u", "Forbidden", 0, 1, none⟩, ⟨"B", "v", "r", 0, 0, none⟩] "A" 9).1 _
  · exact (c9_failure_registry_lifecycle
      [⟨"A", "u", "Forbidden", 0, 1, none⟩, ⟨"B", "v", "r", 0, 0, none⟩] "A" 9).2.1
      (by decide) ⟨"A", "u", "Forbidden", 0, 1, none⟩ (by decide) rfl

/-- C7 witness: with no stored rows the start date of the next run is 7
days before now, and with one stored row it is that row's date. -/
theorem c7_last_known_date_default_witness :
    getLastUpdateTime [] "Nature" 100 = 100 - 7 ∧
    (⟨"Nature", 42⟩ : DBPaperRow).pubDate ≤ getLastUpdateTime [⟨"Nature", 42⟩] "Nature" 100 := by
  constructor
  · exact (c7_last_known_date_default [] "Nature" 100).2.1 rfl
  · exact (c7_last_known_date_default [⟨"Nature", 42⟩] "Nature" 100).2.2.1
      ⟨"Nature", 42⟩ (by decide)

/-- A non-NULL key collides exactly when a row with that key is stored. -/
lemma countKey_eq_zero_iff (db : List DBRow) (k : String) :
    countKey db k = 0 ↔ db.any (fun r => r.key = some k) = false := by
  simp only [countKey, List.length_eq_zero, List.filter_eq_nil_iff, List.any_eq_false,
    decide_eq_true_eq]

/-- C6 counterexample: a paper whose DOI and URL are both empty has the
empty string as its identity key both times, yet the stored key is NULL,
which the `unique_doi` constraint never deduplicates — the second `save`
returns `True` (not `False`) and two records end up stored. -/
theorem c6_blank_key_counterexample :
    saveKey blankKeyPaper = none ∧
    (savePaper (savePaper [] blankKeyPaper).2 blankKeyPaper).1 = true ∧
    (savePaper (savePaper [] blankKeyPaper).2 blankKeyPaper).2.length = 2 := by
  decide

/-- C6 (amended): for every item whose stored identity key is non-NULL
(a non-blank DOI, or a blank DOI with a non-blank URL), saving twice
yields exactly one stored record under that key and the duplicate call
is a no-op returning `False`. -/
theorem c6_save_idempotent (db : List DBRow) (p : PaperRec) (k : String)
    (hk : saveKey p = some k) :
    (savePaper (savePaper db p).2 p).1 = false ∧
    (savePaper (savePaper db p).2 p).2 = (savePaper db p).2 ∧
    (countKey db k = 0 → countKey (savePaper db p).2 k = 1) := by
  by_cases hany : db.any (fun r => r.key = some k) = true
  · have h1 : savePaper db p = (false, db) := by
      simp [savePaper, hk, hany]
    rw [h1]
    refine ⟨by simp [savePaper, hk, hany], by simp [savePaper, hk, hany], ?_⟩
    intro h0
    exact absurd ((countKey_eq_zero_iff db k).mp h0) (by simp [hany])
  · have hfalse : db.any (fun r => r.key = some k) = false :=
      Bool.eq_false_iff.mpr hany
    have h1 : savePaper db p = (true, db ++ [⟨some k, p⟩]) := by
      simp [savePaper, hk, hfalse]
    have hany2 : (db ++ [(⟨some k, p⟩ : DBRow)]).any (fun r => r.key = some k) = true := by
      simp
    rw [h1]
    refine ⟨by simp [savePaper, hk, hany2], by simp [savePaper, hk, hany2], ?_⟩
    intro h0
    simp only [countKey, List.filter_append] at *
    simp [h0, List.length_eq_zero.mp h0]

/-- C6 witness: a paper with DOI `10.1/x` saved twice into an empty
store: the duplicate call returns `False`, changes nothing, and exactly
one record with that key is stored. -/
theorem c6_save_idempotent_witness :
    saveKey doiPaper = some "10.1/x" ∧
    (savePaper (savePaper [] doiPaper).2 doiPaper).1 = false ∧
    (savePaper (savePaper [] doiPaper).2 doiPaper).2 = (savePaper [] doiPaper).2 ∧
    countKey (savePaper [] doiPaper).2 "10.1/x" = 1 := by
  have h := c6_save_idempotent [] doiPaper "10.1/x" (by decide)
  exact ⟨by decide, h.1, h.2.1, h.2.2 (by decide)⟩

/-- The consensus skips an item exactly when a vote is missing. -/
lemma consensusStep_eq_none_iff (adj : PaperItem → AdjReview)
    (r1m r2m : String → Option Vote) (i : PaperItem) :
    consensusStep adj r1m r2m i = none ↔ (r1m i.id = none ∨ r2m i.id = none) := by
  unfold consensusStep
  rcases r1m i.id with _ | v1 <;> rcases r2m i.id with _ | v2 <;> simp
  split_ifs <;> simp

/-- `bothVotesPresent` is false exactly when a vote is missing. -/
lemma bothVotesPresent_eq_false_iff (r1m r2m : String → Option Vote) (i : PaperItem) :
    bothVotesPresent r1m r2m i = false ↔ (r1m i.id = none ∨ r2m i.id = none) := by
  unfold bothVotesPresent
  rcases r1m i.id with _ | v1 <;> rcases r2m i.id with _ | v2 <;> simp

/-- C1 counterexample: in `run_incremental_crawl`
(`crawler/main_backward.py` lines 230-231) an item whose id is missing
from both passes' result maps hits `continue` and is appended to neither
output list: one item goes in, zero come out — it is silently dropped,
not flagged. -/
theorem c1_missing_vote_dropped_counterexample :
    classifyBackward defaultAdj noVotes noVotes [missingItem] = ([], [], []) ∧
    [missingItem].length = 1 := by
  decide

/-- C1 (amended): the full-crawl consensus (`crawler_light/main.py`)
classifies a missing-vote item non-relevant with the distinct reason
`'AI分析失败'` and item counts match; but the incremental consensus
(`crawler/main_backward.py`, and likewise `NatureParser.scrape_journal`)
silently drops such items, so its output counts only the items with both
votes present. -/
theorem c1_missing_vote_handling (adj : PaperItem → AdjReview)
    (r1m r2m : String → Option Vote) (items : List PaperItem) :
    (classifyLight adj r1m r2m items).1.length +
      (classifyLight adj r1m r2m items).2.1.length = items.length ∧
    (∀ i ∈ items, (r1m i.id = none ∨ r2m i.id = none) →
      (⟨i, false, "AI分析失败"⟩ : ClassifiedPaper) ∈ (classifyLight adj r1m r2m items).2.1) ∧
    (classifyBackward adj r1m r2m items).1.length +
      (classifyBackward adj r1m r2m items).2.1.length =
      (items.filter (bothVotesPresent r1m r2m)).length := by
  refine ⟨?_, ?_, ?_⟩
  · induction items with
    | nil => rfl
    | cons a rest ih =>
      rcases hstep : consensusStep adj r1m r2m a with _ | ⟨v, reason, adjc⟩
      · simp only [classifyLight, hstep, List.length_cons]
        omega
      · rcases v with _ | _ <;>
        · simp only [classifyLight, hstep, List.length_cons, if_true, if_false,
            Bool.false_eq_true, ite_false, ite_true]
          omega
  · intro i hi hmiss
    induction items with
    | nil => simp at hi
    | cons a rest ih =>
      rcases List.mem_cons.mp hi with heq | hmem
      · subst heq
        have hstep : consensusStep adj r1m r2m i = none :=
          (consensusStep_eq_none_iff adj r1m r2m i).mpr hmiss
        simp [classifyLight, hstep]
      · have htail := ih hmem
        rcases hstep : consensusStep adj r1m r2m a with _ | ⟨v, reason, adjc⟩
        · simp only [classifyLight, hstep]
          exact List.mem_cons_of_mem _ htail
        · rcases v with _ | _
          · simp only [classifyLight, hstep, Bool.false_eq_true, if_false]
            exact List.mem_cons_of_mem _ htail
          · simp only [classifyLight, hstep, if_true]
            exact htail
  · induction items with
    | nil => rfl
    | cons a rest ih =>
      rcases hstep : consensusStep adj r1m r2m a with _ | ⟨v, reason, adjc⟩
      · have hnot : bothVotesPresent r1m r2m a = false :=
          (bothVotesPresent_eq_false_iff r1m r2m a).mpr
            ((consensusStep_eq_none_iff adj r1m r2m a).mp hstep)
        simp only [classifyBackward, hstep, List.filter_cons, hnot, Bool.false_eq_true,
          ite_false]
        exact ih
      · have hpres : bothVotesPresent r1m r2m a = true := by
          rcases hb : bothVotesPresent r1m r2m a with _ | _
          · exact absurd hstep (by
              rw [(consensusStep_eq_none_iff adj r1m r2m a).mpr
                ((bothVotesPresent_eq_false_iff r1m r2m a).mp hb)]
              simp)
          · rfl
        rcases v with _ | _ <;>
        · simp only [classifyBackward, hstep, List.filter_cons, hpres, List.length_cons,
            if_true, if_false, Bool.false_eq_true, ite_false, ite_true]
          omega

/-- C1 witness: on a one-item run with both result maps empty, the
full-crawl consensus flags the item non-relevant with reason
`'AI分析失败'` and its output count matches its input count. -/
theorem c1_missing_vote_handling_witness :
    (⟨missingItem, false, "AI分析失败"⟩ : ClassifiedPaper) ∈
      (classifyLight defaultAdj noVotes noVotes [missingItem]).2.1 ∧
    (classifyLight defaultAdj noVotes noVotes [missingItem]).1.length +
      (classifyLight defaultAdj noVotes noVotes [missingItem]).2.1.length = 1 := by
  have h := c1_missing_vote_handling defaultAdj noVotes noVotes [missingItem]
  exact ⟨h.2.1 missingItem (List.mem_singleton.mpr rfl) (Or.inl rfl), h.1⟩

/-- Every id recorded as adjudicated belongs to some input item. -/
lemma classifyLight_calls_subset (adj : PaperItem → AdjReview) (r1m r2m : String → Option Vote) :
    ∀ (items : List PaperItem) (x : String),
      x ∈ (classifyLight adj r1m r2m items).2.2 → x ∈ items.map PaperItem.id := by
  intro items
  induction items with
  | nil => intro x hx; simp [classifyLight] at hx
  | cons a rest ih =>
    intro x hx
    rcases hstep : consensusStep adj r1m r2m a with _ | ⟨v, reason, adjc⟩
    · simp only [classifyLight, hstep] at hx
      exact List.mem_cons_of_mem _ (ih x hx)
    · simp only [classifyLight, hstep] at hx
      rcases v with _ | _ <;> rcases adjc with _ | _
      · exact List.mem_cons_of_mem _ (ih x hx)
      · rcases List.mem_cons.mp hx with heq | hmem
        · exact heq ▸ List.mem_cons_self _ _
        · exact List.mem_cons_of_mem _ (ih x hmem)
      · exact List.mem_cons_of_mem _ (ih x hx)
      · rcases List.mem_cons.mp hx with heq | hmem
        · exact heq ▸ List.mem_cons_self _ _
        · exact List.mem_cons_of_mem _ (ih x hmem)

/-- How one item's consensus outcome shows up in the full-crawl output:
its classified record lands in the matching list, its id is recorded as
adjudicated exactly when its own step adjudicated (given distinct ids). -/
lemma classifyLight_step_mem (adj : PaperItem → AdjReview) (r1m r2m : String → Option Vote)
    (items : List PaperItem) (i : PaperItem) (hi : i ∈ items) (v : Bool) (reason : String)
    (adjc : Bool) (hstep : consensusStep adj r1m r2m i = some (v, reason, adjc)) :
    (v = true → (⟨i, true, reason⟩ : ClassifiedPaper) ∈ (classifyLight adj r1m r2m items).1) ∧
    (v = false → (⟨i, false, reason⟩ : ClassifiedPaper) ∈ (classifyLight adj r1m r2m items).2.1) ∧
    (adjc = true → i.id ∈ (classifyLight adj r1m r2m items).2.2) ∧
    (adjc = false → (items.map PaperItem.id).Nodup →
      i.id ∉ (classifyLight adj r1m r2m items).2.2) := by
  induction items with
  | nil => simp at hi
  | cons a rest ih =>
    rcases List.mem_cons.mp hi with rfl | hmem
    · simp only [classifyLight, hstep]
      rcases v with _ | _ <;> rcases adjc with _ | _
      · refine ⟨fun hv => absurd hv (by decide), fun _ => List.mem_cons_self _ _,
          fun hb => absurd hb (by decide), fun _ hnod hx => ?_⟩
        rw [List.map_cons, List.nodup_cons] at hnod
        exact hnod.1 (classifyLight_calls_subset adj r1m r2m rest i.id hx)
      · exact ⟨fun hv => absurd hv (by decide), fun _ => List.mem_cons_self _ _,
          fun _ => List.mem_cons_self _ _, fun hb => absurd hb (by decide)⟩
      · refine ⟨fun _ => List.mem_cons_self _ _, fun hv => absurd hv (by decide),
          fun hb => absurd hb (by decide), fun _ hnod hx => ?_⟩
        rw [List.map_cons, List.nodup_cons] at hnod
        exact hnod.1 (classifyLight_calls_subset adj r1m r2m rest i.id hx)
      · exact ⟨fun _ => List.mem_cons_self _ _, fun hv => absurd hv (by decide),
          fun _ => List.mem_cons_self _ _, fun hb => absurd hb (by decide)⟩
    · have hrest := ih hmem
      have hi_id_mem : i.id ∈ rest.map PaperItem.id := List.mem_map_of_mem PaperItem.id hmem
      rcases hstepa : consensusStep adj r1m r2m a with _ | ⟨w, wr, wb⟩
      · simp only [classifyLight, hstepa]
        refine ⟨fun hv => hrest.1 hv, fun hv => List.mem_cons_of_mem _ (hrest.2.1 hv),
          fun hb => hrest.2.2.1 hb, fun hb hnod => hrest.2.2.2 hb ?_⟩
        rw [List.map_cons, List.nodup_cons] at hnod
        exact hnod.2
      · simp only [classifyLight, hstepa]
        rcases w with _ | _ <;> rcases wb with _ | _
        · exact ⟨fun hv => hrest.1 hv, fun hv => List.mem_cons_of_mem _ (hrest.2.1 hv),
            fun hb => hrest.2.2.1 hb, fun hb hnod => hrest.2.2.2 hb (by
              rw [List.map_cons, List.nodup_cons] at hnod; exact hnod.2)⟩
        · refine ⟨fun hv => hrest.1 hv, fun hv => List.mem_cons_of_mem _ (hrest.2.1 hv),
            fun hb => List.mem_cons_of_mem _ (hrest.2.2.1 hb), fun hb hnod => ?_⟩
          rw [List.map_cons, List.nodup_cons] at hnod
          intro hx
          rcases List.mem_cons.mp hx with heq | hmemx
          · exact hnod.1 (heq ▸ hi_id_mem)
          · exact hrest.2.2.2 hb hnod.2 hmemx
        · exact ⟨fun hv => List.mem_cons_of_mem _ (hrest.1 hv), fun hv => hrest.2.1 hv,
            fun hb => hrest.2.2.1 hb, fun hb hnod => hrest.2.2.2 hb (by
              rw [List.map_cons, List.nodup_cons] at hnod; exact hnod.2)⟩
        · refine ⟨fun hv => List.mem_cons_of_mem _ (hrest.1 hv), fun hv => hrest.2.1 hv,
            fun hb => List.mem_cons_of_mem _ (hrest.2.2.1 hb), fun hb hnod => ?_⟩
          rw [List.map_cons, List.nodup_cons] at hnod
          intro hx
          rcases List.mem_cons.mp hx with heq | hmemx
          · exact hnod.1 (heq ▸ hi_id_mem)
          · exact hrest.2.2.2 hb hnod.2 hmemx

/-- C2: for an item with both votes present, agreement yields that
shared verdict with pass A's explanation and no adjudication of that
item; adjudication of the item happens exactly on disagreement, and then
the adjudicator's verdict and explanation are stored. -/
theorem c2_consensus_agreement_adjudication (adj : PaperItem → AdjReview)
    (r1m r2m : String → Option Vote) (items : List PaperItem)
    (hids : (items.map PaperItem.id).Nodup) (i : PaperItem) (hi : i ∈ items)
    (v1 v2 : Vote) (h1 : r1m i.id = some v1) (h2 : r2m i.id = some v2) :
    (v1.is_ai_related = v2.is_ai_related →
      i.id ∉ (classifyLight adj r1m r2m items).2.2 ∧
      (v1.is_ai_related = true →
        (⟨i, true, v1.explanation⟩ : ClassifiedPaper) ∈ (classifyLight adj r1m r2m items).1) ∧
      (v1.is_ai_related = false →
        (⟨i, false, v1.explanation⟩ : ClassifiedPaper) ∈ (classifyLight adj r1m r2m items).2.1)) ∧
    (v1.is_ai_related ≠ v2.is_ai_related →
      i.id ∈ (classifyLight adj r1m r2m items).2.2 ∧
      ((adj i).is_ai_related = true →
        (⟨i, true, (adj i).explanation.getD "reviewed"⟩ : ClassifiedPaper) ∈
          (classifyLight adj r1m r2m items).1) ∧
      ((adj i).is_ai_related = false →
        (⟨i, false, (adj i).explanation.getD "reviewed"⟩ : ClassifiedPaper) ∈
          (classifyLight adj r1m r2m items).2.1)) := by
  constructor
  · intro hagree
    rcases hv1 : v1.is_ai_related with _ | _
    · have hv2 : v2.is_ai_related = false := by rw [← hagree, hv1]
      have hstep : consensusStep adj r1m r2m i = some (false, v1.explanation, false) := by
        simp [consensusStep, h1, h2, hv1, hv2]
      have hm := classifyLight_step_mem adj r1m r2m items i hi false v1.explanation false hstep
      exact ⟨hm.2.2.2 rfl hids, fun ht => absurd ht (by decide),
        fun _ => hm.2.1 rfl⟩
    · have hv2 : v2.is_ai_related = true := by rw [← hagree, hv1]
      have hstep : consensusStep adj r1m r2m i = some (true, v1.explanation, false) := by
        simp [consensusStep, h1, h2, hv1, hv2]
      have hm := classifyLight_step_mem adj r1m r2m items i hi true v1.explanation false hstep
      exact ⟨hm.2.2.2 rfl hids, fun _ => hm.1 rfl,
        fun hf => absurd hf (by decide)⟩
  · intro hdis
    have hstep : consensusStep adj r1m r2m i =
        some ((adj i).is_ai_related, (adj i).explanation.getD "reviewed", true) := by
      rcases hv1 : v1.is_ai_related with _ | _ <;> rcases hv2 : v2.is_ai_related with _ | _
      · exact absurd (hv1.trans hv2.symm) hdis
      · simp [consensusStep, h1, h2, hv1, hv2]
      · simp [consensusStep, h1, h2, hv1, hv2]
      · exact absurd (hv1.trans hv2.symm) hdis
    have hm := classifyLight_step_mem adj r1m r2m items i hi (adj i).is_ai_related
      ((adj i).explanation.getD "reviewed") true hstep
    exact ⟨hm.2.2.1 rfl, fun ht => hm.1 ht, fun hf => hm.2.1 hf⟩

/-- C2 witness: a one-item run where both passes vote relevant stores
the item as relevant with pass A's explanation and performs no
adjudication; a run where the passes disagree adjudicates the item and
stores the adjudicator's verdict and explanation. -/
theorem c2_consensus_agreement_adjudication_witness :
    ((⟨"1", "tA", "aA"⟩ : PaperItem).id ∉
        (classifyLight defaultAdj (fun _ => some ⟨true, "expA"⟩) (fun _ => some ⟨true, "expA"⟩)
          [⟨"1", "tA", "aA"⟩]).2.2 ∧
      (⟨⟨"1", "tA", "aA"⟩, true, "expA"⟩ : ClassifiedPaper) ∈
        (classifyLight defaultAdj (fun _ => some ⟨true, "expA"⟩) (fun _ => some ⟨true, "expA"⟩)
          [⟨"1", "tA", "aA"⟩]).1) ∧
    ((⟨"1", "tA", "aA"⟩ : PaperItem).id ∈
        (classifyLight (fun _ => ⟨true, some "adjE"⟩) (fun _ => some ⟨true, "expA"⟩)
          (fun _ => some ⟨false, "expB"⟩) [⟨"1", "tA", "aA"⟩]).2.2 ∧
      (⟨⟨"1", "tA", "aA"⟩, true, "adjE"⟩ : ClassifiedPaper) ∈
        (classifyLight (fun _ => ⟨true, some "adjE"⟩) (fun _ => some ⟨true, "expA"⟩)
          (fun _ => some ⟨false, "expB"⟩) [⟨"1", "tA", "aA"⟩]).1) := by
  constructor
  · have h := (c2_consensus_agreement_adjudication defaultAdj
      (fun _ => some ⟨true, "expA"⟩) (fun _ => some ⟨true, "expA"⟩) [⟨"1", "tA", "aA"⟩]
      (by decide) ⟨"1", "tA", "aA"⟩ (List.mem_singleton.mpr rfl)
      ⟨true, "expA"⟩ ⟨true, "expA"⟩ rfl rfl).1 rfl
    exact ⟨h.1, h.2.1 rfl⟩
  · have h := (c2_consensus_agreement_adjudication (fun _ => ⟨true, some "adjE"⟩)
      (fun _ => some ⟨true, "expA"⟩) (fun _ => some ⟨false, "expB"⟩) [⟨"1", "tA", "aA"⟩]
      (by decide) ⟨"1", "tA", "aA"⟩ (List.mem_singleton.mpr rfl)
      ⟨true, "expA"⟩ ⟨false, "expB"⟩ rfl rfl).2 (by decide)
    exact ⟨h.1, h.2.1 rfl⟩

/-- Unfolding: a single page with no next-page locator. -/
lemma scrapePages_single (s e : Int) (p : List PageCard) (ret : Option Int) :
    scrapePages s e [p] ret = (p.filter (keepCard s e), 1) := rfl

/-- Unfolding: a page with a next-page locator. -/
lemma scrapePages_cons (s e : Int) (p q : List PageCard) (qs : List (List PageCard))
    (ret : Option Int) :
    scrapePages s e (p :: q :: qs) ret =
      match lastRetDate p ret with
      | some d =>
        if d < s then (p.filter (keepCard s e), 1)
        else (p.filter (keepCard s e) ++ (scrapePages s e (q :: qs) (lastRetDate p ret)).1,
          (scrapePages s e (q :: qs) (lastRetDate p ret)).2 + 1)
      | none =>
        (p.filter (keepCard s e) ++ (scrapePages s e (q :: qs) (lastRetDate p ret)).1,
          (scrapePages s e (q :: qs) (lastRetDate p ret)).2 + 1) := rfl

/-- Unfolding: the stop check fires. -/
lemma scrapePages_cons_stop (s e : Int) (p q : List PageCard) (qs : List (List PageCard))
    (ret : Option Int) (d : Int) (h : lastRetDate p ret = some d) (hd : d < s) :
    scrapePages s e (p :: q :: qs) ret = (p.filter (keepCard s e), 1) := by
  rw [scrapePages_cons, h]
  simp [hd]

/-- Unfolding: the last date is in range, pagination continues. -/
lemma scrapePages_cons_go_some (s e : Int) (p q : List PageCard) (qs : List (List PageCard))
    (ret : Option Int) (d : Int) (h : lastRetDate p ret = some d) (hd : ¬d < s) :
    scrapePages s e (p :: q :: qs) ret =
      (p.filter (keepCard s e) ++ (scrapePages s e (q :: qs) (some d)).1,
        (scrapePages s e (q :: qs) (some d)).2 + 1) := by
  rw [scrapePages_cons, h]
  simp [hd]

/-- Unfolding: no date seen yet, pagination continues. -/
lemma scrapePages_cons_go_none (s e : Int) (p q : List PageCard) (qs : List (List PageCard))
    (ret : Option Int) (h : lastRetDate p ret = none) :
    scrapePages s e (p :: q :: qs) ret =
      (p.filter (keepCard s e) ++ (scrapePages s e (q :: qs) none).1,
        (scrapePages s e (q :: qs) none).2 + 1) := by
  rw [scrapePages_cons, h]

/-- With a dated reverse-chronological stream, the early pagination stop
loses nothing: the collected candidates are exactly the kept cards of
the whole stream. -/
lemma scrape_collects_all (s e : Int) :
    ∀ (pages : List (List PageCard)) (ret : Option Int),
      (∀ p ∈ pages, ∀ c ∈ p, (PageCard.date c).isSome = true) →
      pages.flatten.Pairwise (fun a b => cardOlderLEB a b = true) →
      (∀ r, ret = some r → ∀ b ∈ pages.flatten, ∀ db, b.date = some db → db ≤ r) →
      (scrapePages s e pages ret).1 = pages.flatten.filter (keepCard s e) := by
  intro pages
  induction pages with
  | nil => intro ret _ _ _; simp [scrapePages]
  | cons p rest ih =>
    intro ret hdated hmono hret
    have hmono' := List.pairwise_append.mp (by rwa [List.flatten_cons] at hmono)
    have hdatedRest : ∀ p' ∈ rest, ∀ c ∈ p', (PageCard.date c).isSome = true :=
      fun p' hp' => hdated p' (List.mem_cons_of_mem _ hp')
    have hret' : ∀ r, lastRetDate p ret = some r →
        ∀ b ∈ rest.flatten, ∀ db, b.date = some db → db ≤ r := by
      intro r hr b hb db hdb
      rcases hlast : p.getLast? with _ | cl
      · simp only [lastRetDate, hlast] at hr
        exact hret r hr b (by rw [List.flatten_cons]; exact List.mem_append_right _ hb) db hdb
      · simp only [lastRetDate, hlast] at hr
        have hclmem : cl ∈ p := List.mem_of_mem_getLast? hlast
        have hrel := hmono'.2.2 cl hclmem b hb
        simpa [cardOlderLEB, hr, hdb] using hrel
    rcases rest with _ | ⟨q, qs⟩
    · rw [scrapePages_single]
      show p.filter (keepCard s e) = _
      simp
    · rcases hret2 : lastRetDate p ret with _ | d
      · have hrec := ih none hdatedRest hmono'.2.1 (fun r hr => by cases hr)
        rw [scrapePages_cons_go_none s e p q qs ret hret2]
        show p.filter (keepCard s e) ++ (scrapePages s e (q :: qs) none).1 = _
        rw [hrec]
        simp [List.filter_append]
      · by_cases hd : d < s
        · rw [scrapePages_cons_stop s e p q qs ret d hret2 hd]
          show p.filter (keepCard s e) = _
          have hrestnil : (q :: qs).flatten.filter (keepCard s e) = [] := by
            rw [List.filter_eq_nil_iff]
            intro c hc
            obtain ⟨pg, hpg, hcpg⟩ := List.mem_flatten.mp hc
            obtain ⟨dc, hdc⟩ := Option.isSome_iff_exists.mp (hdatedRest pg hpg c hcpg)
            have hlt : dc < s := lt_of_le_of_lt (hret' d hret2 c hc dc hdc) hd
            simp [keepCard, hdc, not_le.mpr hlt]
          rw [List.flatten_cons, List.filter_append, hrestnil, List.append_nil]
        · have hrec := ih (some d) hdatedRest hmono'.2.1
            (fun r hr b hb db hdb => hret' r (hret2.trans hr) b hb db hdb)
          rw [scrapePages_cons_go_some s e p q qs ret d hret2 hd]
          show p.filter (keepCard s e) ++ (scrapePages s e (q :: qs) (some d)).1 = _
          rw [hrec]
          simp [List.filter_append]

/-- With a dated reverse-chronological stream, once a page holds a card
dated before the window start, pagination visits no page beyond it. -/
lemma scrape_visit_bound (s e : Int) :
    ∀ (pages : List (List PageCard)) (ret : Option Int),
      (∀ p ∈ pages, ∀ c ∈ p, (PageCard.date c).isSome = true) →
      pages.flatten.Pairwise (fun a b => cardOlderLEB a b = true) →
      ∀ (j : Nat) (c : PageCard), c ∈ pages.getD j [] → ∀ d, c.date = some d → d < s →
      (scrapePages s e pages ret).2 ≤ j + 1 := by
  intro pages
  induction pages with
  | nil =>
    intro ret _ _ j c hc d hd hds
    simp [List.getD] at hc
  | cons p rest ih =>
    intro ret hdated hmono j c hc d hdc hds
    have hmono' := List.pairwise_append.mp (by rwa [List.flatten_cons] at hmono)
    have hdatedRest : ∀ p' ∈ rest, ∀ c' ∈ p', (PageCard.date c').isSome = true :=
      fun p' hp' => hdated p' (List.mem_cons_of_mem _ hp')
    rcases j with _ | j
    · rw [List.getD_cons_zero] at hc
      have hpne : p ≠ [] := by
        intro h; rw [h] at hc; exact List.not_mem_nil c hc
      have hlast : p.getLast? = some (p.getLast hpne) :=
        List.getLast?_eq_getLast_of_ne_nil hpne
      have hclmem : p.getLast hpne ∈ p := List.getLast_mem hpne
      obtain ⟨dl, hdl⟩ := Option.isSome_iff_exists.mp
        (hdated p (List.mem_cons_self p rest) (p.getLast hpne) hclmem)
      have hdle : dl ≤ d := by
        have hdecomp : p.dropLast ++ [p.getLast hpne] = p := List.dropLast_append_getLast hpne
        have hpair : (p.dropLast ++ [p.getLast hpne]).Pairwise
            (fun a b => cardOlderLEB a b = true) := by
          rw [hdecomp]; exact hmono'.1
        have hsplit := List.pairwise_append.mp hpair
        rcases List.mem_append.mp (by rw [hdecomp]; exact hc) with hcd | hcl2
        · have hrel := hsplit.2.2 c hcd (p.getLast hpne) (List.mem_singleton.mpr rfl)
          simpa [cardOlderLEB, hdc, hdl] using hrel
        · have hce : c = p.getLast hpne := List.mem_singleton.mp hcl2
          rw [hce] at hdc
          exact le_of_eq (Option.some.inj (hdl.symm.trans hdc))
      have hdls : dl < s := lt_of_le_of_lt hdle hds
      rcases rest with _ | ⟨q, qs⟩
      · rw [scrapePages_single]
      · have hret2 : lastRetDate p ret = some dl := by
          simp only [lastRetDate, hlast]; exact hdl
        rw [scrapePages_cons_stop s e p q qs ret dl hret2 hdls]
    · rw [List.getD_cons_succ] at hc
      rcases rest with _ | ⟨q, qs⟩
      · simp [List.getD] at hc
      · rcases hret2 : lastRetDate p ret with _ | dd
        · rw [scrapePages_cons_go_none s e p q qs ret hret2]
          exact Nat.succ_le_succ (ih none hdatedRest hmono'.2.1 j c hc d hdc hds)
        · by_cases hdd : dd < s
          · rw [scrapePages_cons_stop s e p q qs ret dd hret2 hdd]
            exact Nat.succ_le_succ (Nat.zero_le (j + 1))
          · rw [scrapePages_cons_go_some s e p q qs ret dd hret2 hdd]
            exact Nat.succ_le_succ (ih (some dd) hdatedRest hmono'.2.1 j c hc d hdc hds)

/-- C4 counterexample: the spec's stream `[10, 9, 8, 5, 1]` (window
`[6, 11]`) laid out one item per page: the collected items are exactly
those dated 10, 9, 8, but 4 pages are visited — the stop check reads
only the last date of a fetched page, so the page containing 5 (the 4th)
is itself fetched, beyond the page containing 8 (the 3rd). -/
theorem c4_stop_page_counterexample :
    (scrapePages 6 11 samplePages none).1 = [sampleCard 10, sampleCard 9, sampleCard 8] ∧
    samplePages.getD 2 [] = [sampleCard 8] ∧
    (scrapePages 6 11 samplePages none).2 = 4 ∧
    ¬(scrapePages 6 11 samplePages none).2 ≤ 2 + 1 := by
  decide

/-- C4 (amended): for a listing stream whose cards all carry parsed
dates, listed reverse-chronologically, the crawler collects exactly the
kept in-window cards of the whole stream, and visits no page beyond the
one containing the first card dated strictly before the window start
(rather than the last in-window card's page, as originally claimed). -/
theorem c4_window_filter_stop_rule (s e : Int) (pages : List (List PageCard))
    (hdated : ∀ p ∈ pages, ∀ c ∈ p, (PageCard.date c).isSome = true)
    (hmono : reverseChronological pages) :
    (scrapePages s e pages none).1 = pages.flatten.filter (keepCard s e) ∧
    (∀ (j : Nat) (c : PageCard), c ∈ pages.getD j [] → ∀ d, c.date = some d → d < s →
      (scrapePages s e pages none).2 ≤ j + 1) := by
  refine ⟨scrape_collects_all s e pages none hdated hmono (fun r hr => by cases hr), ?_⟩
  intro j c hc d hdc hds
  exact scrape_visit_bound s e pages none hdated hmono j c hc d hdc hds

/-- C4 witness: on the spec's stream, the crawler returns exactly the
cards dated 10, 9, 8 and visits no page beyond the page holding the
first too-old card (5, on page index 3). -/
theorem c4_window_filter_stop_rule_witness :
    (∀ p ∈ samplePages, ∀ c ∈ p, (PageCard.date c).isSome = true) ∧
    reverseChronological samplePages ∧
    (scrapePages 6 11 samplePages none).1 = samplePages.flatten.filter (keepCard 6 11) ∧
    samplePages.flatten.filter (keepCard 6 11) =
      [sampleCard 10, sampleCard 9, sampleCard 8] ∧
    (scrapePages 6 11 samplePages none).2 ≤ 3 + 1 := by
  have h := c4_window_filter_stop_rule 6 11 samplePages (by decide)
    (by unfold reverseChronological; decide)
  refine ⟨by decide, by unfold reverseChronological; decide, h.1, by decide, ?_⟩
  exact h.2 3 (sampleCard 5) (by decide) 5 rfl (by decide)

/-- C10: a card whose date failed to parse bypasses the window filter:
its `keepCard` outcome is window-independent and reduces to the dedup
checks, and such a card on a visited page is collected whatever the
window is. -/
theorem c10_undated_bypass_window (s1 e1 s2 e2 : Int) (c : PageCard) (hc : c.date = none) :
    keepCard s1 e1 c = keepCard s2 e2 c ∧
    keepCard s1 e1 c = (!c.inDb && !c.inNonAiSet) ∧
    (∀ (page : List PageCard) (rest : List (List PageCard)) (ret : Option Int),
      c ∈ page → c.inDb = false → c.inNonAiSet = false →
      c ∈ (scrapePages s1 e1 (page :: rest) ret).1) := by
  have hk : ∀ s e : Int, keepCard s e c = (!c.inDb && !c.inNonAiSet) := by
    intro s e
    simp [keepCard, hc]
  refine ⟨(hk s1 e1).trans (hk s2 e2).symm, hk s1 e1, ?_⟩
  intro page rest ret hmem hdb hnas
  have hkeep : keepCard s1 e1 c = true := by rw [hk]; simp [hdb, hnas]
  have hfil : c ∈ page.filter (keepCard s1 e1) := List.mem_filter.mpr ⟨hmem, hkeep⟩
  cases rest with
  | nil =>
    rw [scrapePages_single]
    exact hfil
  | cons q qs =>
    rcases hret : lastRetDate page ret with _ | d
    · rw [scrapePages_cons_go_none s1 e1 page q qs ret hret]
      exact List.mem_append_left _ hfil
    · by_cases hd : d < s1
      · rw [scrapePages_cons_stop s1 e1 page q qs ret d hret hd]
        exact hfil
      · rw [scrapePages_cons_go_some s1 e1 page q qs ret d hret hd]
        exact List.mem_append_left _ hfil

/-- C10 witness: an undated card is kept under two different windows
alike and is collected from the first page of a stream. -/
theorem c10_undated_bypass_window_witness :
    keepCard 0 1 (⟨none, false, false⟩ : PageCard) = keepCard 5 9 ⟨none, false, false⟩ ∧
    (⟨none, false, false⟩ : PageCard) ∈ (scrapePages 0 1 [[⟨none, false, false⟩]] none).1 := by
  have h := c10_undated_bypass_window 0 1 5 9 ⟨none, false, false⟩ rfl
  exact ⟨h.1, h.2.2 [⟨none, false, false⟩] [] none (List.mem_singleton.mpr rfl) rfl rfl⟩

/-- C5: the relaxed fallback returns at most 2 entries, each a scanned
entry, and the selection is distance-minimal to the window midpoint: any
scanned dated entry strictly closer to the midpoint than a selected one
is itself selected. -/
theorem c5_nearest_fallback (links : List IssueLink) (s e : Int) :
    (findNearestIssues links s e).length ≤ 2 ∧
    (∀ l ∈ findNearestIssues links s e, l ∈ links) ∧
    (∀ l ∈ findNearestIssues links s e, ∀ dl, l.date = some dl →
      ∀ m ∈ links, ∀ dm, m.date = some dm →
        issueDistance (targetCenter s e) dm < issueDistance (targetCenter s e) dl →
        m ∈ findNearestIssues links s e) := by
  set wd : List (IssueLink × Nat) := links.filterMap (fun l =>
    match l.date with
    | some d => some (l, issueDistance (targetCenter s e) d)
    | none => none) with hwd
  have hres : findNearestIssues links s e =
      ((List.insertionSort distLE wd).take 2).map Prod.fst := rfl
  have hperm : (List.insertionSort distLE wd).Perm wd := List.perm_insertionSort distLE wd
  have hsorted : List.Sorted distLE (List.insertionSort distLE wd) :=
    List.sorted_insertionSort distLE wd
  have hwd_mem : ∀ pr : IssueLink × Nat, pr ∈ wd →
      pr.1 ∈ links ∧ ∃ d0, pr.1.date = some d0 ∧
        pr.2 = issueDistance (targetCenter s e) d0 := by
    intro pr hpr
    rw [hwd] at hpr
    obtain ⟨a, ha, hfa⟩ := List.mem_filterMap.mp hpr
    rcases had : a.date with _ | d0
    · rw [had] at hfa
      cases hfa
    · rw [had] at hfa
      have hpr_eq : (a, issueDistance (targetCenter s e) d0) = pr := Option.some.inj hfa
      refine ⟨?_, d0, ?_, ?_⟩
      · rw [← hpr_eq]
        exact ha
      · rw [← hpr_eq]
        exact had
      · rw [← hpr_eq]
  have hwd_mem' : ∀ (m : IssueLink) (dm : Int), m ∈ links → m.date = some dm →
      (m, issueDistance (targetCenter s e) dm) ∈ wd := by
    intro m dm hm hdm
    rw [hwd]
    exact List.mem_filterMap.mpr ⟨m, hm, by rw [hdm]⟩
  refine ⟨?_, ?_, ?_⟩
  · rw [hres, List.length_map, List.length_take]
    exact min_le_left _ _
  · intro l hl
    rw [hres] at hl
    obtain ⟨pr, hpr, hpr1⟩ := List.mem_map.mp hl
    have hprs : pr ∈ wd := hperm.mem_iff.mp (List.mem_of_mem_take hpr)
    exact hpr1 ▸ (hwd_mem pr hprs).1
  · intro l hl dl hdl m hm dm hdm hlt
    rw [hres] at hl ⊢
    obtain ⟨pr, hpr, hpr1⟩ := List.mem_map.mp hl
    have hprs : pr ∈ wd := hperm.mem_iff.mp (List.mem_of_mem_take hpr)
    obtain ⟨hpr_links, d0, hd0, hdist⟩ := hwd_mem pr hprs
    have hd0l : d0 = dl := by
      rw [hpr1] at hd0
      exact Option.some.inj (hd0.symm.trans hdl)
    have hpr2 : pr.2 = issueDistance (targetCenter s e) dl := by rw [hdist, hd0l]
    have hpm : (m, issueDistance (targetCenter s e) dm) ∈ List.insertionSort distLE wd :=
      hperm.mem_iff.mpr (hwd_mem' m dm hm hdm)
    rw [← List.take_append_drop 2 (List.insertionSort distLE wd)] at hpm
    rcases List.mem_append.mp hpm with htake | hdrop
    · exact List.mem_map.mpr ⟨(m, issueDistance (targetCenter s e) dm), htake, rfl⟩
    · exfalso
      have hrel := hsorted.rel_of_mem_take_of_mem_drop hpr hdrop
      rw [distLE, hpr2] at hrel
      exact absurd hrel (not_le.mpr hlt)

/-- C5 witness: the spec's example — window midpoint day 0, entries
dated -12 and +45 days; at most 2 are returned and the closer entry
(-12) is selected. -/
theorem c5_nearest_fallback_witness :
    (findNearestIssues [⟨"a", "u", some (-12)⟩, ⟨"b", "v", some 45⟩] 0 1).length ≤ 2 ∧
    (⟨"a", "u", some (-12)⟩ : IssueLink) ∈
      findNearestIssues [⟨"a", "u", some (-12)⟩, ⟨"b", "v", some 45⟩] 0 1 := by
  have h := c5_nearest_fallback [⟨"a", "u", some (-12)⟩, ⟨"b", "v", some 45⟩] 0 1
  refine ⟨h.1, ?_⟩
  exact h.2.2 ⟨"b", "v", some 45⟩ (by decide) 45 rfl ⟨"a", "u", some (-12)⟩ (by decide)
    (-12) rfl (by decide)

/-- The pre-attempt sleep list holds nothing but that sleep. -/
lemma preDelayEvs_mem {rand : Nat → ℚ} {i : Nat} {e : FetchEv} (he : e ∈ preDelayEvs rand i) :
    e = FetchEv.preDelay i ((5 + 10 * rand (2 * i)) * ((i : ℚ) + 1)) := by
  unfold preDelayEvs at he
  by_cases hi : i > 0
  · rw [if_pos hi] at he
    exact List.mem_singleton.mp he
  · rw [if_neg hi] at he
    exact absurd he (List.not_mem_nil e)

/-- The pre-attempt sleep list contains no attempt event. -/
lemma countAttempts_preDelayEvs (rand : Nat → ℚ) (i : Nat) :
    countAttempts (preDelayEvs rand i) = 0 := by
  unfold preDelayEvs countAttempts
  by_cases hi : i > 0 <;> simp [hi, isAttemptEv]

/-- Splitting counts over appended traces. -/
lemma countAttempts_append (l1 l2 : List FetchEv) :
    countAttempts (l1 ++ l2) = countAttempts l1 + countAttempts l2 :=
  List.countP_append isAttemptEv l1 l2

/-- What the events before the first network action can be. -/
lemma mem_evs0 {rand : Nat → ℚ} {uaAt : Nat → String} {i : Nat} {e : FetchEv}
    (he : e ∈ preDelayEvs rand i ++ [FetchEv.attemptReq i (uaAt i)]) :
    e = FetchEv.preDelay i ((5 + 10 * rand (2 * i)) * ((i : ℚ) + 1)) ∨
      e = FetchEv.attemptReq i (uaAt i) := by
  rcases List.mem_append.mp he with h | h
  · exact Or.inl (preDelayEvs_mem h)
  · exact Or.inr (List.mem_singleton.mp h)

/-- Everything the plain-requests phase guarantees about its result and
trace: the attempt budget, the per-attempt identity, the sleep values,
the 403 sleep being followed by another attempt, no browser involvement,
and failure meaning no attempt got a 200. -/
lemma requestsLoop_spec (outcomes : Nat → HttpOutcome) (uaAt : Nat → String)
    (rand : Nat → ℚ) :
    ∀ (r i : Nat),
      countAttempts (requestsLoop outcomes uaAt rand i r).2 ≤ r ∧
      (∀ j u, FetchEv.attemptReq j u ∈ (requestsLoop outcomes uaAt rand i r).2 → u = uaAt j) ∧
      (∀ j d, FetchEv.preDelay j d ∈ (requestsLoop outcomes uaAt rand i r).2 →
        d = (5 + 10 * rand (2 * j)) * ((j : ℚ) + 1)) ∧
      (∀ j d, FetchEv.forbiddenDelay j d ∈ (requestsLoop outcomes uaAt rand i r).2 →
        d = 10 + 10 * rand (2 * j + 1) ∧
          ∃ u, FetchEv.attemptReq (j + 1) u ∈ (requestsLoop outcomes uaAt rand i r).2) ∧
      FetchEv.seleniumFallback ∉ (requestsLoop outcomes uaAt rand i r).2 ∧
      ((requestsLoop outcomes uaAt rand i r).1 = none →
        ∀ j u, FetchEv.attemptReq j u ∈ (requestsLoop outcomes uaAt rand i r).2 →
          ∀ len, outcomes j ≠ .success len) ∧
      (0 < r → ∃ u, FetchEv.attemptReq i u ∈ (requestsLoop outcomes uaAt rand i r).2) := by
  intro r
  induction r with
  | zero =>
    intro i
    refine ⟨?_, ?_, ?_, ?_, ?_, ?_, ?_⟩ <;> simp [requestsLoop, countAttempts]
  | succ n ih =>
    intro i
    obtain ⟨ihc, ihua, ihpre, ihforb, ihsel, ihnone, ihatt⟩ := ih (i + 1)
    rcases ho : outcomes i with len | _ | code | _
    · -- 200: return immediately
      have htr : requestsLoop outcomes uaAt rand i (n + 1) =
          (some len, preDelayEvs rand i ++ [.attemptReq i (uaAt i)]) := by
        simp [requestsLoop, ho]
      rw [htr]
      refine ⟨?_, ?_, ?_, ?_, ?_, ?_, ?_⟩
      · have h1 : countAttempts [FetchEv.attemptReq i (uaAt i)] = 1 := by
          simp [countAttempts, isAttemptEv]
        rw [countAttempts_append, countAttempts_preDelayEvs, h1]
        omega
      · intro j u hj
        rcases mem_evs0 hj with h | h
        · cases h
        · rw [FetchEv.attemptReq.injEq] at h
          rw [h.2, h.1]
      · intro j d hj
        rcases mem_evs0 hj with h | h
        · rw [FetchEv.preDelay.injEq] at h
          rw [h.2, h.1]
        · cases h
      · intro j d hj
        rcases mem_evs0 hj with h | h <;> cases h
      · intro hj
        rcases mem_evs0 hj with h | h <;> cases h
      · intro hres
        cases hres
      · intro _
        exact ⟨uaAt i, List.mem_append_right _ (List.mem_singleton.mpr rfl)⟩
    · -- 403
      by_cases hn : n > 0
      · have htr : requestsLoop outcomes uaAt rand i (n + 1) =
            ((requestsLoop outcomes uaAt rand (i + 1) n).1,
              (preDelayEvs rand i ++ [.attemptReq i (uaAt i)]) ++
                .forbiddenDelay i (10 + 10 * rand (2 * i + 1)) ::
                  (requestsLoop outcomes uaAt rand (i + 1) n).2) := by
          simp [requestsLoop, ho, hn]
        rw [htr]
        have hmem_split : ∀ {e : FetchEv},
            e ∈ (preDelayEvs rand i ++ [FetchEv.attemptReq i (uaAt i)]) ++
              FetchEv.forbiddenDelay i (10 + 10 * rand (2 * i + 1)) ::
                (requestsLoop outcomes uaAt rand (i + 1) n).2 →
            e ∈ preDelayEvs rand i ++ [FetchEv.attemptReq i (uaAt i)] ∨
              e = FetchEv.forbiddenDelay i (10 + 10 * rand (2 * i + 1)) ∨
              e ∈ (requestsLoop outcomes uaAt rand (i + 1) n).2 := by
          intro e he
          rcases List.mem_append.mp he with h | h
          · exact Or.inl h
          · rcases List.mem_cons.mp h with h | h
            · exact Or.inr (Or.inl h)
            · exact Or.inr (Or.inr h)
        obtain ⟨u1, hu1⟩ := ihatt hn
        have hlift : ∀ {e : FetchEv}, e ∈ (requestsLoop outcomes uaAt rand (i + 1) n).2 →
            e ∈ (preDelayEvs rand i ++ [FetchEv.attemptReq i (uaAt i)]) ++
              FetchEv.forbiddenDelay i (10 + 10 * rand (2 * i + 1)) ::
                (requestsLoop outcomes uaAt rand (i + 1) n).2 :=
          fun he => List.mem_append_right _ (List.mem_cons_of_mem _ he)
        refine ⟨?_, ?_, ?_, ?_, ?_, ?_, ?_⟩
        · rw [countAttempts_append, countAttempts_append, countAttempts_preDelayEvs]
          have h1 : countAttempts [FetchEv.attemptReq i (uaAt i)] = 1 := by
            simp [countAttempts, isAttemptEv]
          have h2 : countAttempts (FetchEv.forbiddenDelay i (10 + 10 * rand (2 * i + 1)) ::
              (requestsLoop outcomes uaAt rand (i + 1) n).2) =
              countAttempts (requestsLoop outcomes uaAt rand (i + 1) n).2 := by
            simp [countAttempts, isAttemptEv]
          rw [h1, h2]
          omega
        · intro j u hj
          rcases hmem_split hj with h | h | h
          · rcases mem_evs0 h with h' | h'
            · cases h'
            · rw [FetchEv.attemptReq.injEq] at h'
              rw [h'.2, h'.1]
          · cases h
          · exact ihua j u h
        · intro j d hj
          rcases hmem_split hj with h | h | h
          · rcases mem_evs0 h with h' | h'
            · rw [FetchEv.preDelay.injEq] at h'
              rw [h'.2, h'.1]
            · cases h'
          · cases h
          · exact ihpre j d h
        · intro j d hj
          rcases hmem_split hj with h | h | h
          · rcases mem_evs0 h with h' | h' <;> cases h'
          · rw [FetchEv.forbiddenDelay.injEq] at h
            refine ⟨by rw [h.2, h.1], u1, ?_⟩
            rw [h.1]
            exact hlift hu1
          · obtain ⟨hd, u2, hu2⟩ := ihforb j d h
            exact ⟨hd, u2, hlift hu2⟩
        · intro hj
          rcases hmem_split hj with h | h | h
          · rcases mem_evs0 h with h' | h' <;> cases h'
          · cases h
          · exact ihsel h
        · intro hres j u hj
          rcases hmem_split hj with h | h | h
          · rcases mem_evs0 h with h' | h'
            · cases h'
            · rw [FetchEv.attemptReq.injEq] at h'
              rw [h'.1, ho]
              intro len hcon
              cases hcon
          · cases h
          · exact ihnone hres j u h
        · intro _
          exact ⟨uaAt i, List.mem_append_left _
            (List.mem_append_right _ (List.mem_singleton.mpr rfl))⟩
      · have hn0 : n = 0 := Nat.eq_zero_of_not_pos hn
        have htr : requestsLoop outcomes uaAt rand i (n + 1) =
            (none, preDelayEvs rand i ++ [.attemptReq i (uaAt i)]) := by
          simp [requestsLoop, ho, hn]
        rw [htr]
        refine ⟨?_, ?_, ?_, ?_, ?_, ?_, ?_⟩
        · have h1 : countAttempts [FetchEv.attemptReq i (uaAt i)] = 1 := by
            simp [countAttempts, isAttemptEv]
          rw [countAttempts_append, countAttempts_preDelayEvs, h1]
          omega
        · intro j u hj
          rcases mem_evs0 hj with h | h
          · cases h
          · rw [FetchEv.attemptReq.injEq] at h
            rw [h.2, h.1]
        · intro j d hj
          rcases mem_evs0 hj with h | h
          · rw [FetchEv.preDelay.injEq] at h
            rw [h.2, h.1]
          · cases h
        · intro j d hj
          rcases mem_evs0 hj with h | h <;> cases h
        · intro hj
          rcases mem_evs0 hj with h | h <;> cases h
        · intro _ j u hj
          rcases mem_evs0 hj with h | h
          · cases h
          · rw [FetchEv.attemptReq.injEq] at h
            rw [h.1, ho]
            intro len hcon
            cases hcon
        · intro _
          exact ⟨uaAt i, List.mem_append_right _ (List.mem_singleton.mpr rfl)⟩
    · -- other HTTP status: continue without extra sleep
      have htr : requestsLoop outcomes uaAt rand i (n + 1) =
          ((requestsLoop outcomes uaAt rand (i + 1) n).1,
            (preDelayEvs rand i ++ [.attemptReq i (uaAt i)]) ++
              (requestsLoop outcomes uaAt rand (i + 1) n).2) := by
        simp [requestsLoop, ho]
      rw [htr]
      have hlift : ∀ {e : FetchEv}, e ∈ (requestsLoop outcomes uaAt rand (i + 1) n).2 →
          e ∈ (preDelayEvs rand i ++ [FetchEv.attemptReq i (uaAt i)]) ++
            (requestsLoop outcomes uaAt rand (i + 1) n).2 :=
        fun he => List.mem_append_right _ he
      refine ⟨?_, ?_, ?_, ?_, ?_, ?_, ?_⟩
      · rw [countAttempts_append, countAttempts_append, countAttempts_preDelayEvs]
        have h1 : countAttempts [FetchEv.attemptReq i (uaAt i)] = 1 := by
          simp [countAttempts, isAttemptEv]
        rw [h1]
        omega
      · intro j u hj
        rcases List.mem_append.mp hj with h | h
        · rcases mem_evs0 h with h' | h'
          · cases h'
          · rw [FetchEv.attemptReq.injEq] at h'
            rw [h'.2, h'.1]
        · exact ihua j u h
      · intro j d hj
        rcases List.mem_append.mp hj with h | h
        · rcases mem_evs0 h with h' | h'
          · rw [FetchEv.preDelay.injEq] at h'
            rw [h'.2, h'.1]
          · cases h'
        · exact ihpre j d h
      · intro j d hj
        rcases List.mem_append.mp hj with h | h
        · rcases mem_evs0 h with h' | h' <;> cases h'
        · obtain ⟨hd, u2, hu2⟩ := ihforb j d h
          exact ⟨hd, u2, hlift hu2⟩
      · intro hj
        rcases List.mem_append.mp hj with h | h
        · rcases mem_evs0 h with h' | h' <;> cases h'
        · exact ihsel h
      · intro hres j u hj
        rcases List.mem_append.mp hj with h | h
        · rcases mem_evs0 h with h' | h'
          · cases h'
          · rw [FetchEv.attemptReq.injEq] at h'
            rw [h'.1, ho]
            intro len hcon
            cases hcon
        · exact ihnone hres j u h
      · intro _
        exact ⟨uaAt i, List.mem_append_left _
          (List.mem_append_right _ (List.mem_singleton.mpr rfl))⟩
    · -- exception
      by_cases hn : n > 0
      · have htr : requestsLoop outcomes uaAt rand i (n + 1) =
            ((requestsLoop outcomes uaAt rand (i + 1) n).1,
              (preDelayEvs rand i ++ [.attemptReq i (uaAt i)]) ++
                .excDelay i (5 + 7 * rand (2 * i + 1)) ::
                  (requestsLoop outcomes uaAt rand (i + 1) n).2) := by
          simp [requestsLoop, ho, hn]
        rw [htr]
        have hmem_split : ∀ {e : FetchEv},
            e ∈ (preDelayEvs rand i ++ [FetchEv.attemptReq i (uaAt i)]) ++
              FetchEv.excDelay i (5 + 7 * rand (2 * i + 1)) ::
                (requestsLoop outcomes uaAt rand (i + 1) n).2 →
            e ∈ preDelayEvs rand i ++ [FetchEv.attemptReq i (uaAt i)] ∨
              e = FetchEv.excDelay i (5 + 7 * rand (2 * i + 1)) ∨
              e ∈ (requestsLoop outcomes uaAt rand (i + 1) n).2 := by
          intro e he
          rcases List.mem_append.mp he with h | h
          · exact Or.inl h
          · rcases List.mem_cons.mp h with h | h
            · exact Or.inr (Or.inl h)
            · exact Or.inr (Or.inr h)
        have hlift : ∀ {e : FetchEv}, e ∈ (requestsLoop outcomes uaAt rand (i + 1) n).2 →
            e ∈ (preDelayEvs rand i ++ [FetchEv.attemptReq i (uaAt i)]) ++
              FetchEv.excDelay i (5 + 7 * rand (2 * i + 1)) ::
                (requestsLoop outcomes uaAt rand (i + 1) n).2 :=
          fun he => List.mem_append_right _ (List.mem_cons_of_mem _ he)
        refine ⟨?_, ?_, ?_, ?_, ?_, ?_, ?_⟩
        · rw [countAttempts_append, countAttempts_append, countAttempts_preDelayEvs]
          have h1 : countAttempts [FetchEv.attemptReq i (uaAt i)] = 1 := by
            simp [countAttempts, isAttemptEv]
          have h2 : countAttempts (FetchEv.excDelay i (5 + 7 * rand (2 * i + 1)) ::
              (requestsLoop outcomes uaAt rand (i + 1) n).2) =
              countAttempts (requestsLoop outcomes uaAt rand (i + 1) n).2 := by
            simp [countAttempts, isAttemptEv]
          rw [h1, h2]
          omega
        · intro j u hj
          rcases hmem_split hj with h | h | h
          · rcases mem_evs0 h with h' | h'
            · cases h'
            · rw [FetchEv.attemptReq.injEq] at h'
              rw [h'.2, h'.1]
          · cases h
          · exact ihua j u h
        · intro j d hj
          rcases hmem_split hj with h | h | h
          · rcases mem_evs0 h with h' | h'
            · rw [FetchEv.preDelay.injEq] at h'
              rw [h'.2, h'.1]
            · cases h'
          · cases h
          · exact ihpre j d h
        · intro j d hj
          rcases hmem_split hj with h | h | h
          · rcases mem_evs0 h with h' | h' <;> cases h'
          · cases h
          · obtain ⟨hd, u2, hu2⟩ := ihforb j d h
            exact ⟨hd, u2, hlift hu2⟩
        · intro hj
          rcases hmem_split hj with h | h | h
          · rcases mem_evs0 h with h' | h' <;> cases h'
          · cases h
          · exact ihsel h
        · intro hres j u hj
          rcases hmem_split hj with h | h | h
          · rcases mem_evs0 h with h' | h'
            · cases h'
            · rw [FetchEv.attemptReq.injEq] at h'
              rw [h'.1, ho]
              intro len hcon
              cases hcon
          · cases h
          · exact ihnone hres j u h
        · intro _
          exact ⟨uaAt i, List.mem_append_left _
            (List.mem_append_right _ (List.mem_singleton.mpr rfl))⟩
      · have hn0 : n = 0 := Nat.eq_zero_of_not_pos hn
        have htr : requestsLoop outcomes uaAt rand i (n + 1) =
            (none, preDelayEvs rand i ++ [.attemptReq i (uaAt i)]) := by
          simp [requestsLoop, ho, hn]
        rw [htr]
        refine ⟨?_, ?_, ?_, ?_, ?_, ?_, ?_⟩
        · have h1 : countAttempts [FetchEv.attemptReq i (uaAt i)] = 1 := by
            simp [countAttempts, isAttemptEv]
          rw [countAttempts_append, countAttempts_preDelayEvs, h1]
          omega
        · intro j u hj
          rcases mem_evs0 hj with h | h
          · cases h
          · rw [FetchEv.attemptReq.injEq] at h
            rw [h.2, h.1]
        · intro j d hj
          rcases mem_evs0 hj with h | h
          · rw [FetchEv.preDelay.injEq] at h
            rw [h.2, h.1]
          · cases h
        · intro j d hj
          rcases mem_evs0 hj with h | h <;> cases h
        · intro hj
          rcases mem_evs0 hj with h | h <;> cases h
        · intro _ j u hj
          rcases mem_evs0 hj with h | h
          · cases h
          · rw [FetchEv.attemptReq.injEq] at h
            rw [h.1, ho]
            intro len hcon
            cases hcon
        · intro _
          exact ⟨uaAt i, List.mem_append_right _ (List.mem_singleton.mpr rfl)⟩

/-- `random.choice` always yields a pool member. -/
lemma uaSelect_mem (uaPool : List String) (choice : Nat → Nat) (hpool : uaPool ≠ [])
    (i : Nat) : uaSelect uaPool choice i ∈ uaPool := by
  unfold uaSelect
  have hlen : 0 < uaPool.length := List.length_pos.mpr hpool
  have hmod : choice i % uaPool.length < uaPool.length := Nat.mod_lt _ hlen
  rw [List.getD_eq_getElem uaPool "" hmod]
  exact List.getElem_mem hmod

/-- Bounds of the scaled inter-attempt sleep
`uniform(5, 15) * (attempt + 1)`. -/
lemma uniform515_bounds (rand : Nat → ℚ) (hr : ∀ n, 0 ≤ rand n ∧ rand n ≤ 1) (n i : Nat) :
    5 * ((i : ℚ) + 1) ≤ (5 + 10 * rand n) * ((i : ℚ) + 1) ∧
      (5 + 10 * rand n) * ((i : ℚ) + 1) ≤ 15 * ((i : ℚ) + 1) := by
  have h0 := (hr n).1
  have h1 := (hr n).2
  have hp : (0 : ℚ) ≤ (i : ℚ) + 1 := by positivity
  constructor
  · apply mul_le_mul_of_nonneg_right _ hp
    linarith
  · apply mul_le_mul_of_nonneg_right _ hp
    linarith

/-- C8: at most `max_retries` plain attempts (default 3); each attempt
draws its User-Agent from the pool; attempt `i`'s preceding sleep lies
in `[5(i+1), 15(i+1)]` — a randomized range growing with the attempt
index; a 403 adds a sleep in `[10, 20]` and is followed by the next
attempt, not immediate failure; the browser fallback is entered only
with every plain attempt non-200 and the fallback enabled; and `None`
comes back only with all plain attempts failed and, when the fallback is
available, the fallback tried and failed too. -/
theorem c8_fetch_retry_fallback (outcomes : Nat → HttpOutcome) (uaPool : List String)
    (choice : Nat → Nat) (rand : Nat → ℚ) (maxRetries : Nat) (cfg : SeleniumCfg)
    (selOut : SelOutcome) (hr : ∀ n, 0 ≤ rand n ∧ rand n ≤ 1) (hpool : uaPool ≠ []) :
    countAttempts (getPageWithRetry outcomes uaPool choice rand maxRetries cfg selOut).2 ≤
      maxRetries ∧
    (∀ i u, FetchEv.attemptReq i u ∈
        (getPageWithRetry outcomes uaPool choice rand maxRetries cfg selOut).2 →
      u = uaSelect uaPool choice i ∧ u ∈ uaPool) ∧
    (∀ i d, FetchEv.preDelay i d ∈
        (getPageWithRetry outcomes uaPool choice rand maxRetries cfg selOut).2 →
      5 * ((i : ℚ) + 1) ≤ d ∧ d ≤ 15 * ((i : ℚ) + 1)) ∧
    (∀ i j : Nat, i < j → 5 * ((i : ℚ) + 1) < 5 * ((j : ℚ) + 1)) ∧
    (∀ i d, FetchEv.forbiddenDelay i d ∈
        (getPageWithRetry outcomes uaPool choice rand maxRetries cfg selOut).2 →
      (10 ≤ d ∧ d ≤ 20) ∧ ∃ u, FetchEv.attemptReq (i + 1) u ∈
        (getPageWithRetry outcomes uaPool choice rand maxRetries cfg selOut).2) ∧
    (FetchEv.seleniumFallback ∈
        (getPageWithRetry outcomes uaPool choice rand maxRetries cfg selOut).2 →
      (cfg.useSeleniumFallback && cfg.useSelenium && cfg.hasDriver) = true ∧
      ∀ i u, FetchEv.attemptReq i u ∈
          (getPageWithRetry outcomes uaPool choice rand maxRetries cfg selOut).2 →
        ∀ len, outcomes i ≠ .success len) ∧
    ((getPageWithRetry outcomes uaPool choice rand maxRetries cfg selOut).1 = none →
      (∀ i u, FetchEv.attemptReq i u ∈
          (getPageWithRetry outcomes uaPool choice rand maxRetries cfg selOut).2 →
        ∀ len, outcomes i ≠ .success len) ∧
      ((cfg.useSeleniumFallback && cfg.useSelenium && cfg.hasDriver) = true →
        FetchEv.seleniumFallback ∈
          (getPageWithRetry outcomes uaPool choice rand maxRetries cfg selOut).2 ∧
        seleniumOk selOut = false)) := by
  obtain ⟨hc, hua, hpre, hforb, hsel, hnone, _⟩ :=
    requestsLoop_spec outcomes (uaSelect uaPool choice) rand maxRetries 0
  have hgrow : ∀ i j : Nat, i < j → 5 * ((i : ℚ) + 1) < 5 * ((j : ℚ) + 1) := by
    intro i j hij
    have : (i : ℚ) < (j : ℚ) := by exact_mod_cast hij
    linarith
  rcases hp : (requestsLoop outcomes (uaSelect uaPool choice) rand 0 maxRetries).1
    with _ | len
  case' some =>
    have hres : getPageWithRetry outcomes uaPool choice rand maxRetries cfg selOut =
        (some (.plain len),
          (requestsLoop outcomes (uaSelect uaPool choice) rand 0 maxRetries).2) := by
      simp [getPageWithRetry, hp]
    rw [hres]
    refine ⟨hc, ?_, ?_, hgrow, ?_, ?_, ?_⟩
    · intro i u hi
      have h1 := hua i u hi
      exact ⟨h1, h1 ▸ uaSelect_mem uaPool choice hpool i⟩
    · intro i d hi
      have h1 := hpre i d hi
      rw [h1]
      exact uniform515_bounds rand hr (2 * i) i
    · intro i d hi
      obtain ⟨hd, u, hu⟩ := hforb i d hi
      refine ⟨?_, u, hu⟩
      rw [hd]
      have h0 := (hr (2 * i + 1)).1
      have h1 := (hr (2 * i + 1)).2
      constructor <;> linarith
    · intro hsf
      exact absurd hsf hsel
    · intro hres0
      simp at hres0
  case' none =>
    by_cases hcfg : (cfg.useSeleniumFallback && cfg.useSelenium && cfg.hasDriver) = true
    case' pos =>
      have hsplit : ∀ {e : FetchEv},
          e ∈ (requestsLoop outcomes (uaSelect uaPool choice) rand 0 maxRetries).2 ++
            [FetchEv.seleniumFallback] →
          e ∈ (requestsLoop outcomes (uaSelect uaPool choice) rand 0 maxRetries).2 ∨
            e = FetchEv.seleniumFallback := by
        intro e he
        rcases List.mem_append.mp he with h | h
        · exact Or.inl h
        · exact Or.inr (List.mem_singleton.mp h)
      have hcnt : countAttempts
          ((requestsLoop outcomes (uaSelect uaPool choice) rand 0 maxRetries).2 ++
            [FetchEv.seleniumFallback]) ≤ maxRetries := by
        rw [countAttempts_append]
        have h0 : countAttempts [FetchEv.seleniumFallback] = 0 := by
          simp [countAttempts, isAttemptEv]
        rw [h0]
        omega
      rcases hso : selOut with ⟨slen, marker⟩ | _
      · by_cases hok : (!marker && decide (1000 < slen)) = true
        · have hres : getPageWithRetry outcomes uaPool choice rand maxRetries cfg
              (SelOutcome.loaded slen marker) =
              (some (.selenium slen),
                (requestsLoop outcomes (uaSelect uaPool choice) rand 0 maxRetries).2 ++
                  [FetchEv.seleniumFallback]) := by
            simp [getPageWithRetry, hp, hcfg, hok]
          rw [hres]
          refine ⟨hcnt, ?_, ?_, hgrow, ?_, ?_, ?_⟩
          · intro i u hi
            rcases hsplit hi with h | h
            · have h1 := hua i u h
              exact ⟨h1, h1 ▸ uaSelect_mem uaPool choice hpool i⟩
            · cases h
          · intro i d hi
            rcases hsplit hi with h | h
            · have h1 := hpre i d h
              rw [h1]
              exact uniform515_bounds rand hr (2 * i) i
            · cases h
          · intro i d hi
            rcases hsplit hi with h | h
            · obtain ⟨hd, u, hu⟩ := hforb i d h
              refine ⟨?_, u, List.mem_append_left _ hu⟩
              rw [hd]
              have h0 := (hr (2 * i + 1)).1
              have h1 := (hr (2 * i + 1)).2
              constructor <;> linarith
            · cases h
          · intro _
            refine ⟨hcfg, ?_⟩
            intro i u hi
            rcases hsplit hi with h | h
            · exact hnone hp i u h
            · cases h
          · intro hres0
            simp at hres0
        · have hres : getPageWithRetry outcomes uaPool choice rand maxRetries cfg
              (SelOutcome.loaded slen marker) =
              (none,
                (requestsLoop outcomes (uaSelect uaPool choice) rand 0 maxRetries).2 ++
                  [FetchEv.seleniumFallback]) := by
            simp [getPageWithRetry, hp, hcfg, hok]
          rw [hres]
          refine ⟨hcnt, ?_, ?_, hgrow, ?_, ?_, ?_⟩
          · intro i u hi
            rcases hsplit hi with h | h
            · have h1 := hua i u h
              exact ⟨h1, h1 ▸ uaSelect_mem uaPool choice hpool i⟩
            · cases h
          · intro i d hi
            rcases hsplit hi with h | h
            · have h1 := hpre i d h
              rw [h1]
              exact uniform515_bounds rand hr (2 * i) i
            · cases h
          · intro i d hi
            rcases hsplit hi with h | h
            · obtain ⟨hd, u, hu⟩ := hforb i d h
              refine ⟨?_, u, List.mem_append_left _ hu⟩
              rw [hd]
              have h0 := (hr (2 * i + 1)).1
              have h1 := (hr (2 * i + 1)).2
              constructor <;> linarith
            · cases h
          · intro _
            refine ⟨hcfg, ?_⟩
            intro i u hi
            rcases hsplit hi with h | h
            · exact hnone hp i u h
            · cases h
          · intro _
            refine ⟨?_, ?_⟩
            · intro i u hi
              rcases hsplit hi with h | h
              · exact hnone hp i u h
              · cases h
            · intro _
              refine ⟨List.mem_append_right _ (List.mem_singleton.mpr rfl), ?_⟩
              have hok' : (!marker && decide (1000 < slen)) = false :=
                Bool.eq_false_iff.mpr hok
              simp [seleniumOk, hok']
      · have hres : getPageWithRetry outcomes uaPool choice rand maxRetries cfg
            SelOutcome.failed =
            (none,
              (requestsLoop outcomes (uaSelect uaPool choice) rand 0 maxRetries).2 ++
                [FetchEv.seleniumFallback]) := by
          simp [getPageWithRetry, hp, hcfg]
        rw [hres]
        refine ⟨hcnt, ?_, ?_, hgrow, ?_, ?_, ?_⟩
        · intro i u hi
          rcases hsplit hi with h | h
          · have h1 := hua i u h
            exact ⟨h1, h1 ▸ uaSelect_mem uaPool choice hpool i⟩
          · cases h
        · intro i d hi
          rcases hsplit hi with h | h
          · have h1 := hpre i d h
            rw [h1]
            exact uniform515_bounds rand hr (2 * i) i
          · cases h
        · intro i d hi
          rcases hsplit hi with h | h
          · obtain ⟨hd, u, hu⟩ := hforb i d h
            refine ⟨?_, u, List.mem_append_left _ hu⟩
            rw [hd]
            have h0 := (hr (2 * i + 1)).1
            have h1 := (hr (2 * i + 1)).2
            constructor <;> linarith
          · cases h
        · intro _
          refine ⟨hcfg, ?_⟩
          intro i u hi
          rcases hsplit hi with h | h
          · exact hnone hp i u h
          · cases h
        · intro _
          refine ⟨?_, ?_⟩
          · intro i u hi
            rcases hsplit hi with h | h
            · exact hnone hp i u h
            · cases h
          · intro _
            exact ⟨List.mem_append_right _ (List.mem_singleton.mpr rfl), rfl⟩
    case' neg =>
      have hres : getPageWithRetry outcomes uaPool choice rand maxRetries cfg selOut =
          (none, (requestsLoop outcomes (uaSelect uaPool choice) rand 0 maxRetries).2) := by
        simp [getPageWithRetry, hp, hcfg]
      rw [hres]
      refine ⟨hc, ?_, ?_, hgrow, ?_, ?_, ?_⟩
      · intro i u hi
        have h1 := hua i u hi
        exact ⟨h1, h1 ▸ uaSelect_mem uaPool choice hpool i⟩
      · intro i d hi
        have h1 := hpre i d hi
        rw [h1]
        exact uniform515_bounds rand hr (2 * i) i
      · intro i d hi
        obtain ⟨hd, u, hu⟩ := hforb i d hi
        refine ⟨?_, u, hu⟩
        rw [hd]
        have h0 := (hr (2 * i + 1)).1
        have h1 := (hr (2 * i + 1)).2
        constructor <;> linarith
      · intro hsf
        exact absurd hsf hsel
      · intro _
        exact ⟨fun i u hi => hnone hp i u hi, fun hcfg' => absurd hcfg' hcfg⟩

/-- C8 witness: a fetch whose three plain attempts all get 403, with the
fallback enabled and the browser failing too: at most 3 attempts happen,
every attempt's User-Agent comes from the pool, and the overall result
is honestly `None` with the fallback having been tried. -/
theorem c8_fetch_retry_fallback_witness :
    countAttempts (getPageWithRetry (fun _ => HttpOutcome.forbidden) ["UA-A", "UA-B"]
      (fun i => i) (fun _ => 0) 3 ⟨true, true, true⟩ SelOutcome.failed).2 ≤ 3 ∧
    (∀ i u, FetchEv.attemptReq i u ∈ (getPageWithRetry (fun _ => HttpOutcome.forbidden)
        ["UA-A", "UA-B"] (fun i => i) (fun _ => 0) 3 ⟨true, true, true⟩
        SelOutcome.failed).2 → u ∈ ["UA-A", "UA-B"]) ∧
    FetchEv.seleniumFallback ∈ (getPageWithRetry (fun _ => HttpOutcome.forbidden)
      ["UA-A", "UA-B"] (fun i => i) (fun _ => 0) 3 ⟨true, true, true⟩
      SelOutcome.failed).2 ∧
    seleniumOk SelOutcome.failed = false := by
  have h := c8_fetch_retry_fallback (fun _ => HttpOutcome.forbidden) ["UA-A", "UA-B"]
    (fun i => i) (fun _ => 0) 3 ⟨true, true, true⟩ SelOutcome.failed
    (fun _ => ⟨le_rfl, zero_le_one⟩) (by decide)
  have hnone := h.2.2.2.2.2.2 (by decide)
  exact ⟨h.1, fun i u hi => (h.2.1 i u hi).2, (hnone.2 rfl).1, (hnone.2 rfl).2⟩

end Crawler2025
